import Mathlib

/-!
# Endpoint contexts of the `gut` synchroniser (`sync_context.go`)

A shallow embedding of `sync_context.go`: address parsing, endpoint naming and the
pidfile based daemon lifecycle.

* Go strings are lists of characters.
* `regexp`, `strconv.ParseInt`, `strings.SplitN`, `strings.HasSuffix`, `strings.Replace`
  and `crypto/md5` are written out for the calls the file makes.
* What the file obtains from `bismuth.ExecContext` is a field of the context (address,
  platform, watched root, `AbsPath`), an explicit state (`Machine`: the files of the host
  and the trace of calls made on it) or a field of `Env` (the outcome of commands and
  listings, `path.Join`, and the package constant `PidfilesPath`).
* A file can be read exactly when it exists. `DeleteFile`, like `WriteFile` and `Mkdirp`,
  can fail: the host decides, and a failed delete leaves the file in place.
-/

namespace Gut

/-- A Go string, as its sequence of characters. -/
abbrev Str := List Char

/-! ## The fragment of Go `regexp` used by `remotePathRegexp` -/

/-- Abstract syntax of the regular expressions needed for `remotePathRegexp`:
anchors, literals, a greedy `+` over a character class, a greedy `?`, concatenation
and numbered capture groups. -/
inductive Regexp where
  | bol : Regexp
  | eol : Regexp
  | lit (c : Char) : Regexp
  | plus (cls : Char → Bool) : Regexp
  | quest (r : Regexp) : Regexp
  | cat (a b : Regexp) : Regexp
  | cap (i : Nat) (r : Regexp) : Regexp

/-- A point reached by the matcher: the offset in the text, the text still to be
consumed and the text of every capture group closed so far (`[]` for a group that did
not take part, which is what `FindStringSubmatch` reports as `""`). -/
structure Thread where
  pos : Nat
  rest : Str
  caps : List Str

/-- All ways for `cls+` to consume a non-empty run at the head of the text, the longest
run first (the quantifier is greedy). Each result is the new offset and remaining text. -/
def Regexp.runPlus (cls : Char → Bool) : Nat → Str → List (Nat × Str)
  | _, [] => []
  | pos, c :: t => if cls c then Regexp.runPlus cls (pos + 1) t ++ [(pos + 1, t)] else []

/-- Every way the expression can match at a thread, in the order a backtracking matcher
tries them. Go's leftmost-first semantics selects the first one that completes. -/
def Regexp.exec : Regexp → Thread → List Thread
  | .bol, th => if th.pos = 0 then [th] else []
  | .eol, th => if th.rest.isEmpty then [th] else []
  | .lit c, th =>
    match th.rest with
    | d :: t => if d = c then [{ pos := th.pos + 1, rest := t, caps := th.caps }] else []
    | [] => []
  | .plus cls, th =>
    (Regexp.runPlus cls th.pos th.rest).map
      (fun pr => { pos := pr.1, rest := pr.2, caps := th.caps })
  | .quest r, th => r.exec th ++ [th]
  | .cat a b, th => (a.exec th).flatMap b.exec
  | .cap i r, th =>
    (r.exec th).map
      (fun th' => { th' with caps := th'.caps.set i (th.rest.take (th'.pos - th.pos)) })

/-- One attempt of the matcher at a given offset: the submatches of the first complete
match starting there, group 0 being the whole match. -/
def Regexp.matchAt (re : Regexp) (numCap : Nat) (pos : Nat) (rest : Str) : Option (List Str) :=
  match (re.exec { pos := pos, rest := rest, caps := List.replicate (numCap + 1) [] }).head? with
  | some th => some (th.caps.set 0 (rest.take (th.pos - pos)))
  | none => none

/-- The leftmost match: try every start offset in turn. -/
def Regexp.findFrom (re : Regexp) (numCap : Nat) : Nat → Str → List Str
  | pos, [] => (re.matchAt numCap pos []).getD []
  | pos, c :: t =>
    match re.matchAt numCap pos (c :: t) with
    | some parts => parts
    | none => Regexp.findFrom re numCap (pos + 1) t

/-- `(*Regexp).FindStringSubmatch`: the submatches of the leftmost match, or the empty
slice when there is none. -/
def Regexp.FindStringSubmatch (re : Regexp) (numCap : Nat) (s : Str) : List Str :=
  re.findFrom numCap 0 s

/-- Source line 32: `^((([^@]+)@)?([^:]+):)?(.+)$`. Negated classes match a line feed,
`.` does not, and `$` only matches at the end of the text (Go's default flags). -/
def remotePathRegexp : Regexp :=
  .cat .bol
    (.cat
      (.quest (.cap 1
        (.cat
          (.quest (.cap 2 (.cat (.cap 3 (.plus (fun c => c != '@'))) (.lit '@'))))
          (.cat (.cap 4 (.plus (fun c => c != ':'))) (.lit ':')))))
      (.cat (.cap 5 (.plus (fun c => c != '\n'))) .eol))

/-! ## Contexts -/

/-- The two address fields of `bismuth.ExecContext`, the embedded struct of
`SyncContext`; `Username()`/`Hostname()` read them and `SetUsername`/`SetHostname`
write them. The remaining capabilities of the struct used by the daemon code are fields
too: the platform flag `IsWindows()`, `WatchedRoot()` and `AbsPath`. -/
structure ExecContext where
  username : Str
  hostname : Str
  isWindows : Bool
  watchedRoot : Str
  absPath : Str → Str

/-- Source lines 16-21. -/
structure SyncContext where
  exec : ExecContext
  syncPath : Str
  hasGutInstalled : Option Bool
  tailHash : Str

/-- The value returned by `bismuth.NewExecContext()`, a package outside this file: both
address fields have the zero value of a Go string, no user and no host yet. -/
def NewExecContext (isWindows : Bool) (watchedRoot : Str) (absPath : Str → Str) : ExecContext :=
  { username := [], hostname := [], isWindows := isWindows, watchedRoot := watchedRoot,
    absPath := absPath }

/-- Source lines 25-30: a zero `SyncContext` around a new `ExecContext`, appended to the
global `AllSyncContexts`. -/
def NewSyncContext (e : ExecContext) (AllSyncContexts : List SyncContext) :
    SyncContext × List SyncContext :=
  let ctx : SyncContext := { exec := e, syncPath := [], hasGutInstalled := none, tailHash := [] }
  (ctx, AllSyncContexts ++ [ctx])

def SyncContext.Username (ctx : SyncContext) : Str := ctx.exec.username

def SyncContext.Hostname (ctx : SyncContext) : Str := ctx.exec.hostname

def SyncContext.SetUsername (ctx : SyncContext) (u : Str) : SyncContext :=
  { ctx with exec := { ctx.exec with username := u } }

def SyncContext.SetHostname (ctx : SyncContext) (h : Str) : SyncContext :=
  { ctx with exec := { ctx.exec with hostname := h } }

/-- Modelled from the spec: `IsLocal()` of the execution context is not in this file;
the spec's data model says an empty `hostname` means the local machine. -/
def SyncContext.IsLocal (ctx : SyncContext) : Bool := ctx.exec.hostname.isEmpty

def SyncContext.IsWindows (ctx : SyncContext) : Bool := ctx.exec.isWindows

/-- Source lines 34-53. `currentUser` is the outcome of `user.Current()`: the user name,
or `none` when the lookup fails. The result is the error or the updated context. -/
def SyncContext.ParseSyncPath (currentUser : Option Str) (ctx : SyncContext) (path : Str) :
    Except Str SyncContext :=
  let parts := remotePathRegexp.FindStringSubmatch 5 path
  if parts.length = 0 then
    .error ("Could not parse remote path: [".toList ++ path ++ "]\n".toList)
  else
    let isRemote := decide ((parts.getD 1 []).length > 0)
    let ctx1 :=
      if isRemote then
        let ctx2 :=
          if (parts.getD 3 []).length > 0 then ctx.SetUsername (parts.getD 3 [])
          else
            match currentUser with
            | some name => ctx.SetUsername name
            | none => ctx
        ctx2.SetHostname (parts.getD 4 [])
      else ctx
    .ok { ctx1 with syncPath := parts.getD 5 [] }

/-- Source lines 59-64. -/
def SyncContext.String (ctx : SyncContext) : Str :=
  if ctx.Hostname ≠ [] then
    "\x7bSyncContext ".toList ++ ctx.Username ++ "@".toList ++ ctx.Hostname ++ ":".toList
      ++ ctx.syncPath ++ "\x7d".toList
  else
    "\x7bSyncContext local ".toList ++ ctx.syncPath ++ "\x7d".toList

/-! ## MD5, as used by `BranchName` -/

/-- The conversion `[]byte(s)`: the UTF-8 encoding of the string. -/
def toBytes (s : Str) : List Nat :=
  s.flatMap (fun c => (String.utf8EncodeChar c).map UInt8.toNat)

namespace md5

/-- The per-round left rotation amounts of MD5 (RFC 1321). -/
def shifts : List Nat :=
  [7, 12, 17, 22, 7, 12, 17, 22, 7, 12, 17, 22, 7, 12, 17, 22,
   5, 9, 14, 20, 5, 9, 14, 20, 5, 9, 14, 20, 5, 9, 14, 20,
   4, 11, 16, 23, 4, 11, 16, 23, 4, 11, 16, 23, 4, 11, 16, 23,
   6, 10, 15, 21, 6, 10, 15, 21, 6, 10, 15, 21, 6, 10, 15, 21]

/-- The sine table of MD5 (RFC 1321). -/
def table : List Nat :=
  [0xd76aa478, 0xe8c7b756, 0x242070db, 0xc1bdceee,
   0xf57c0faf, 0x4787c62a, 0xa8304613, 0xfd469501,
   0x698098d8, 0x8b44f7af, 0xffff5bb1, 0x895cd7be,
   0x6b901122, 0xfd987193, 0xa679438e, 0x49b40821,
   0xf61e2562, 0xc040b340, 0x265e5a51, 0xe9b6c7aa,
   0xd62f105d, 0x02441453, 0xd8a1e681, 0xe7d3fbc8,
   0x21e1cde6, 0xc33707d6, 0xf4d50d87, 0x455a14ed,
   0xa9e3e905, 0xfcefa3f8, 0x676f02d9, 0x8d2a4c8a,
   0xfffa3942, 0x8771f681, 0x6d9d6122, 0xfde5380c,
   0xa4beea44, 0x4bdecfa9, 0xf6bb4b60, 0xbebfbc70,
   0x289b7ec6, 0xeaa127fa, 0xd4ef3085, 0x04881d05,
   0xd9d4d039, 0xe6db99e5, 0x1fa27cf8, 0xc4ac5665,
   0xf4292244, 0x432aff97, 0xab9423a7, 0xfc93a039,
   0x655b59c3, 0x8f0ccc92, 0xffeff47d, 0x85845dd1,
   0x6fa87e4f, 0xfe2ce6e0, 0xa3014314, 0x4e0811a1,
   0xf7537e82, 0xbd3af235, 0x2ad7d2bb, 0xeb86d391]

/-- Rotate a 32 bit word left. -/
def rotl (x n : Nat) : Nat := ((x <<< n) ||| (x >>> (32 - n))) % 2 ^ 32

/-- A little-endian 32 bit word from four bytes. -/
def word (bs : List Nat) : Nat :=
  bs.getD 0 0 + bs.getD 1 0 * 2 ^ 8 + bs.getD 2 0 * 2 ^ 16 + bs.getD 3 0 * 2 ^ 24

/-- The four bytes of a 32 bit word, least significant first. -/
def wordBytes (w : Nat) : List Nat :=
  [w % 256, w / 2 ^ 8 % 256, w / 2 ^ 16 % 256, w / 2 ^ 24 % 256]

/-- The message followed by the byte `0x80`, zero bytes up to 56 modulo 64, and the
length in bits as a little-endian 64 bit number. -/
def pad (msg : List Nat) : List Nat :=
  let n := msg.length
  let zeros := (55 + 64 - n % 64) % 64
  let bits := n * 8 % 2 ^ 64
  msg ++ [0x80] ++ List.replicate zeros 0
    ++ (List.range 8).map (fun i => bits / 2 ^ (8 * i) % 256)

/-- One of the 64 operations on the state `(a, b, c, d)` with the block words `m`. -/
def step (m : List Nat) (st : Nat × Nat × Nat × Nat) (i : Nat) : Nat × Nat × Nat × Nat :=
  let (a, b, c, d) := st
  let nb := b ^^^ 0xffffffff
  let nd := d ^^^ 0xffffffff
  let fg : Nat × Nat :=
    if i < 16 then ((b &&& c) ||| (nb &&& d), i)
    else if i < 32 then ((d &&& b) ||| (nd &&& c), (5 * i + 1) % 16)
    else if i < 48 then (b ^^^ c ^^^ d, (3 * i + 5) % 16)
    else (c ^^^ (b ||| nd), 7 * i % 16)
  let f := (fg.1 + a + table.getD i 0 + m.getD fg.2 0) % 2 ^ 32
  (d, (b + rotl f (shifts.getD i 0)) % 2 ^ 32, b, c)

/-- Absorb one 64 byte block into the state. -/
def block (st : Nat × Nat × Nat × Nat) (blk : List Nat) : Nat × Nat × Nat × Nat :=
  let m := (List.range 16).map (fun j => word (blk.drop (4 * j)))
  let r := (List.range 64).foldl (step m) st
  ((st.1 + r.1) % 2 ^ 32, (st.2.1 + r.2.1) % 2 ^ 32, (st.2.2.1 + r.2.2.1) % 2 ^ 32,
    (st.2.2.2 + r.2.2.2) % 2 ^ 32)

/-- Absorb `n` consecutive blocks. -/
def blocks : Nat → Nat × Nat × Nat × Nat → List Nat → Nat × Nat × Nat × Nat
  | 0, st, _ => st
  | n + 1, st, bs => blocks n (block st (bs.take 64)) (bs.drop 64)

/-- The result type `[16]byte` of `md5.Sum`. -/
structure Digest where
  bytes : List Nat
  size_eq : bytes.length = 16

/-- The function `crypto/md5.Sum`: the MD5 digest (RFC 1321) of a byte string. -/
def Sum (msg : List Nat) : Digest :=
  let p := pad msg
  let r := blocks (p.length / 64) (0x67452301, 0xefcdab89, 0x98badcfe, 0x10325476) p
  { bytes := wordBytes r.1 ++ wordBytes r.2.1 ++ wordBytes r.2.2.1 ++ wordBytes r.2.2.2
    size_eq := by simp [wordBytes] }

end md5

/-- A lowercase hexadecimal digit. -/
def hexDigit (n : Nat) : Char := "0123456789abcdef".toList.getD n '0'

/-- The verb `%x` applied to a byte array: two lowercase hexadecimal digits per byte. -/
def hexBytes (bs : List Nat) : Str :=
  bs.flatMap (fun b => [hexDigit (b % 256 / 16), hexDigit (b % 16)])

/-- Source lines 66-72. -/
def SyncContext.BranchName (ctx : SyncContext) : Str :=
  let hostname := if ctx.Hostname = [] then "localhost".toList else ctx.Hostname
  hostname ++ "-".toList ++ (hexBytes (md5.Sum (toBytes ctx.String)).bytes).take 8

/-! ## The host: files, processes and the log -/

/-- The calls made on the execution context and its logger, in the order they happen. -/
inductive Effect where
  | log (msg : Str) : Effect
  | readFile (path : Str) : Effect
  | writeFile (path : Str) (data : Str) : Effect
  | deleteFile (path : Str) : Effect
  | mkdirp (path : Str) : Effect
  | listDirectory (path : Str) : Effect
  | run (args : List Str) : Effect
  | quote (suffix : Str) (args : List Str) : Effect
  deriving DecidableEq

/-- The state of the endpoint's host as far as this file touches it: the contents of
every readable file, by path, and the calls made so far. -/
structure Machine where
  files : Str → Option Str
  trace : List Effect

/-- What the code takes from outside `sync_context.go`: the constant `PidfilesPath`
(declared elsewhere in the package), `path.Join`, and the outcome of the calls whose
result the host decides: `Run` and `Quote` give a return code or an error, the directory
listing gives the entry names or an error, `Mkdirp`, `WriteFile` and `DeleteFile` may fail
(`none` is success). None of `pgrep`, `pkill` changes a file. -/
structure Env where
  PidfilesPath : Str
  pathJoin : Str → Str → Str
  run : Machine → List Str → Except Str Int
  quote : Machine → Str → List Str → Except Str Int
  listDirectory : Machine → Str → Except Str (List Str)
  mkdirp : Machine → Str → Option Str
  writeFile : Machine → Str → Str → Option Str
  deleteFile : Machine → Str → Option Str

def Machine.emit (m : Machine) (e : Effect) : Machine :=
  { m with trace := m.trace ++ [e] }

/-- The logger's `Printf`, with the message already formatted. -/
def Printf (msg : Str) (m : Machine) : Machine := m.emit (.log msg)

/-- The capability `ReadFile`: the contents, or an error when there is no such file. -/
def ReadFile (path : Str) (m : Machine) : Except Str Str × Machine :=
  (match m.files path with
    | some data => .ok data
    | none => .error ("open ".toList ++ path ++ ": no such file or directory".toList),
   m.emit (.readFile path))

/-- The capability `WriteFile`. -/
def WriteFile (env : Env) (path data : Str) (m : Machine) : Option Str × Machine :=
  match env.writeFile m path data with
  | some err => (some err, m.emit (.writeFile path data))
  | none =>
    (none, { files := fun p => if p = path then some data else m.files p,
             trace := m.trace ++ [.writeFile path data] })

/-- The capability `DeleteFile`: the returned error, `none` for `nil`. On success there is
no file at the path afterwards; on failure the files are as they were. -/
def DeleteFile (env : Env) (path : Str) (m : Machine) : Option Str × Machine :=
  match env.deleteFile m path with
  | some err => (some err, m.emit (.deleteFile path))
  | none =>
    (none, { files := fun p => if p = path then none else m.files p,
             trace := m.trace ++ [.deleteFile path] })

/-- The capability `Mkdirp`. -/
def Mkdirp (env : Env) (path : Str) (m : Machine) : Option Str × Machine :=
  (env.mkdirp m path, m.emit (.mkdirp path))

/-- The capability `ListDirectory`. -/
def ListDirectory (env : Env) (path : Str) (m : Machine) : Except Str (List Str) × Machine :=
  (env.listDirectory m path, m.emit (.listDirectory path))

/-- The capability `Run`: the return code of the command, or the error of running it. -/
def Run (env : Env) (args : List Str) (m : Machine) : Except Str Int × Machine :=
  (env.run m args, m.emit (.run args))

/-- The capability `Quote`: as `Run`, with the output sent to the log under `suffix`. -/
def Quote (env : Env) (suffix : Str) (args : List Str) (m : Machine) :
    Except Str Int × Machine :=
  (env.quote m suffix args, m.emit (.quote suffix args))

/-! ## Go library functions -/

/-- The value of a decimal digit. -/
def digitVal (c : Char) : Option Nat :=
  if '0'.toNat ≤ c.toNat ∧ c.toNat ≤ '9'.toNat then some (c.toNat - '0'.toNat) else none

/-- The digit loop of `strconv.ParseUint` in base 10: any other character is an error. -/
def parseDigits : Str → Nat → Option Nat
  | [], acc => some acc
  | c :: t, acc =>
    match digitVal c with
    | some d => parseDigits t (acc * 10 + d)
    | none => none

/-- The call `strconv.ParseUint(s, 10, bitSize)`, `none` for either of its errors. -/
def ParseUint (s : Str) (bitSize : Nat) : Option Nat :=
  if s.isEmpty then none
  else
    match parseDigits s 0 with
    | some n => if n < 2 ^ bitSize then some n else none
    | none => none

/-- The call `strconv.ParseInt(s, 10, bitSize)`, `none` when it returns an error: an
optional sign, then digits only, and the value must fit `bitSize` signed bits. -/
def ParseInt (s : Str) (bitSize : Nat) : Option Int :=
  if s.isEmpty then none
  else
    let neg := s.head? == some '-'
    let s1 := if s.head? == some '+' || s.head? == some '-' then s.tail else s
    match ParseUint s1 bitSize with
    | none => none
    | some un =>
      let cutoff := 2 ^ (bitSize - 1)
      if !neg && un ≥ cutoff then none
      else if neg && un > cutoff then none
      else some (if neg then -(un : Int) else (un : Int))

/-- The call `strings.HasSuffix`. -/
def HasSuffix (s suffix : Str) : Bool := suffix.isSuffixOf s

/-- The first occurrence of the separator: the text before it and the text after it. -/
def cut (sep : Char) : Str → Option (Str × Str)
  | [] => none
  | c :: t =>
    if c = sep then some ([], t)
    else
      match cut sep t with
      | some (a, b) => some (c :: a, b)
      | none => none

/-- The call `strings.SplitN(s, sep, n)` for a one character separator and `n ≥ 0`: at
most `n` pieces, the last one being the unsplit remainder. -/
def SplitN (s : Str) (sep : Char) : Nat → List Str
  | 0 => []
  | 1 => [s]
  | n + 2 =>
    match cut sep s with
    | some (a, b) => a :: SplitN b sep (n + 1)
    | none => [s]

/-- The call `strings.Replace(s, "/", "_", -1)`, for one character strings. -/
def Replace (s : Str) (old new : Char) : Str := s.map (fun c => if c = old then new else c)

/-- The verb `%d`. -/
def fmtInt (n : Int) : Str := (toString n).toList

/-! ## Pidfiles -/

def SyncContext.WatchedRoot (ctx : SyncContext) : Str := ctx.exec.watchedRoot

def SyncContext.AbsPath (ctx : SyncContext) (p : Str) : Str := ctx.exec.absPath p

/-- Source lines 167-169. -/
def SyncContext.getPidfileScope (ctx : SyncContext) : Str := Replace ctx.WatchedRoot '/' '_'

/-- Source lines 171-174. -/
def SyncContext.getPidfilePath (env : Env) (ctx : SyncContext) (name : Str) : Str :=
  let scopedName := name ++ "-".toList ++ ctx.getPidfileScope
  ctx.AbsPath (env.pathJoin env.PidfilesPath (scopedName ++ ".pid".toList))

/-- Source lines 176-182. The result is the returned error, `none` for `nil`. -/
def SyncContext.SaveDaemonPid (env : Env) (ctx : SyncContext) (name : Str) (pid : Int)
    (m : Machine) : Option Str × Machine :=
  match Mkdirp env env.PidfilesPath m with
  | (some err, m1) => (some err, m1)
  | (none, m1) => WriteFile env (ctx.getPidfilePath env name) (fmtInt pid) m1

/-- Source lines 184-212. The result is the returned error, `none` for `nil`. The error
of the `DeleteFile` of line 210 is discarded, as in the source. -/
def SyncContext.KillViaPidfile (env : Env) (ctx : SyncContext) (name : Str) (m : Machine) :
    Option Str × Machine :=
  let pidfilePath := ctx.getPidfilePath env name
  match ReadFile pidfilePath m with
  | (.error err, m1) => (some err, m1)
  | (.ok valStr, m1) =>
    match ParseInt valStr 32 with
    | none =>
      (none, Printf ("@(error:Ignoring pidfile for) ".toList ++ name
        ++ " @(error:due to invalid contents [".toList ++ valStr ++ "])\n".toList) m1)
    | some pid =>
      match Run env ["pgrep".toList, "-F".toList, pidfilePath, name] m1 with
      | (.error err, m2) => (some err, m2)
      | (.ok retCode, m2) =>
        let m5 :=
          if retCode = 0 then
            let m3 := Printf ("@(dim)Killing ".toList ++ name ++ " (pid ".toList ++ fmtInt pid
              ++ ")...@(r)".toList) m2
            match Quote env "pkill".toList
                ["pkill".toList, "-F".toList, pidfilePath, name] m3 with
            | (.error err, m4) =>
              Printf (" @(error:failed, ".toList ++ err ++ ")@(dim:.)\n".toList) m4
            | (.ok _, m4) => Printf " done@(dim:.)\n".toList m4
          else m2
        (none, (DeleteFile env pidfilePath m5).2)

/-- Source lines 226-234: the name and scope read off a directory entry, `none` when the
loop moves on to the next entry because the entry does not end in `.pid` or has no `-`. -/
def parsePidfileName (filename : Str) : Option (Str × Str) :=
  if !HasSuffix filename ".pid".toList then none
  else
    let scopedName := filename.take (filename.length - ".pid".toList.length)
    match SplitN scopedName '-' 2 with
    | [name, scope] => some (name, scope)
    | _ => none

/-- Source lines 225-247, the body of the loop for one directory entry. -/
def SyncContext.killAllStep (env : Env) (ctx : SyncContext) (pidfileScope : Str)
    (m : Machine) (filename : Str) : Machine :=
  match parsePidfileName filename with
  | none => m
  | some (name, scope) =>
    if name = "gut".toList && ctx.IsLocal then m
    else if scope = [] || scope ≠ pidfileScope then m
    else
      let scopedName := filename.take (filename.length - ".pid".toList.length)
      let m1 := Printf ("Killing process via pidfile ".toList ++ scopedName ++ "\n".toList) m
      match ctx.KillViaPidfile env name m1 with
      | (some err, m2) =>
        Printf ("Error killing ".toList ++ name ++ " process via pidfile: ".toList ++ err
          ++ "\n".toList) m2
      | (none, m2) => m2

/-- Source lines 214-248. On Windows the logger bails out with the error, which ends the
call; otherwise the machine after the loop is returned. -/
def SyncContext.KillAllViaPidfiles (env : Env) (ctx : SyncContext) (m : Machine) :
    Except Str Machine :=
  if ctx.IsWindows then .error "Not implemented".toList
  else
    match ListDirectory env (ctx.AbsPath env.PidfilesPath) m with
    | (.error err, m1) =>
      .ok (Printf ("Encountered error while listing pidfiles: ".toList ++ err ++ "\n".toList) m1)
    | (.ok files, m1) =>
      let pidfileScope := ctx.getPidfileScope
      .ok (files.foldl (ctx.killAllStep env pidfileScope) m1)

/-! ## Vocabulary of the statements -/

/-- The path of the entry `filename` of the pidfile directory. -/
def SyncContext.entryPath (env : Env) (ctx : SyncContext) (filename : Str) : Str :=
  ctx.AbsPath (env.pathJoin env.PidfilesPath filename)

/-- The effect is a log line. -/
def Effect.isLog (e : Effect) : Prop := ∃ msg, e = .log msg

/-- The effect is one of the calls `KillViaPidfile name` makes on its pidfile: reading
it, the `pgrep` liveness check through it, the `pkill` through it, or deleting it. -/
def Effect.onPidfile (path name : Str) (e : Effect) : Prop :=
  e = .readFile path ∨
  e = .run ["pgrep".toList, "-F".toList, path, name] ∨
  e = .quote "pkill".toList ["pkill".toList, "-F".toList, path, name] ∨
  e = .deleteFile path

/-- The loop of `KillAllViaPidfiles` passes the entry `filename` on to
`KillViaPidfile name`: the entry parses to `name` and the endpoint's own non-empty scope,
and it is not the `gut` daemon of a local endpoint. -/
def SyncContext.killTarget (ctx : SyncContext) (filename name : Str) : Prop :=
  parsePidfileName filename = some (name, ctx.getPidfileScope) ∧
  ctx.getPidfileScope ≠ [] ∧
  ¬ (name = "gut".toList ∧ ctx.IsLocal = true)

/-! ## Concrete endpoints and hosts used in the checks below -/

/-- The remote endpoint `alice@host1:/a/b`, watching `/srv/a`. -/
def remoteEndpoint : SyncContext :=
  { exec := { username := "alice".toList, hostname := "host1".toList, isWindows := false,
              watchedRoot := "/srv/a".toList, absPath := id },
    syncPath := "/a/b".toList, hasGutInstalled := none, tailHash := [] }

/-- The local endpoint for `/local/path`, watching `/srv/a`. -/
def localEndpoint : SyncContext :=
  { exec := { username := [], hostname := [], isWindows := false,
              watchedRoot := "/srv/a".toList, absPath := id },
    syncPath := "/local/path".toList, hasGutInstalled := none, tailHash := [] }

/-- A host for the checks: `path.Join` on clean operands, a pidfile directory with five
entries, `pgrep` finding every daemon but `stale`, and `pkill` succeeding. -/
def demoEnv : Env :=
  { PidfilesPath := "/home/alice/.guts/pidfiles".toList
    pathJoin := fun a b => a ++ "/".toList ++ b
    run := fun _ args => if args.getD 3 [] = "stale".toList then .ok 1 else .ok 0
    quote := fun _ _ _ => .ok 0
    listDirectory := fun _ _ =>
      .ok ["watch-_srv_a.pid".toList, "watch-_srv_b.pid".toList, "gut-_srv_a.pid".toList,
        "stale-_srv_a.pid".toList, "bad-_srv_a.pid".toList]
    mkdirp := fun _ _ => none
    writeFile := fun _ _ _ => none
    deleteFile := fun _ _ => none }

/-- The same host with a pidfile directory in which nothing can be deleted. -/
def stuckEnv : Env :=
  { demoEnv with deleteFile := fun _ _ => some "permission denied".toList }

/-- The files of the host: the five pidfiles. -/
def demoMachine : Machine :=
  { files := fun p =>
      if p = "/home/alice/.guts/pidfiles/watch-_srv_a.pid".toList then some "4242".toList
      else if p = "/home/alice/.guts/pidfiles/watch-_srv_b.pid".toList then some "4343".toList
      else if p = "/home/alice/.guts/pidfiles/gut-_srv_a.pid".toList then some "99".toList
      else if p = "/home/alice/.guts/pidfiles/stale-_srv_a.pid".toList then some "777".toList
      else if p = "/home/alice/.guts/pidfiles/bad-_srv_a.pid".toList then some "garbage".toList
      else none
    trace := [] }

/-! ## Checks on concrete inputs -/

example : ParseInt "123".toList 32 = some 123 := by decide
example : ParseInt "-5".toList 32 = some (-5) := by decide
example : ParseInt "123\n".toList 32 = none := by decide
example : ParseInt "2147483648".toList 32 = none := by decide
example : ParseInt "-2147483648".toList 32 = some (-2147483648) := by decide
example : ParseInt "".toList 32 = none := by decide
example : parsePidfileName "a-b-_r.pid".toList = some ("a".toList, "b-_r".toList) := by decide
example : parsePidfileName "ab.pid".toList = none := by decide
example : SplitN "a-b-c".toList '-' 2 = ["a".toList, "b-c".toList] := by decide
example : fmtInt 42 = "42".toList := by decide
example : localEndpoint.getPidfilePath demoEnv "watch".toList
    = "/home/alice/.guts/pidfiles/watch-_srv_a.pid".toList := by decide
example : (localEndpoint.KillViaPidfile demoEnv "watch".toList demoMachine).2.trace
    = [.readFile "/home/alice/.guts/pidfiles/watch-_srv_a.pid".toList,
       .run ["pgrep".toList, "-F".toList,
         "/home/alice/.guts/pidfiles/watch-_srv_a.pid".toList, "watch".toList],
       .log "@(dim)Killing watch (pid 4242)...@(r)".toList,
       .quote "pkill".toList ["pkill".toList, "-F".toList,
         "/home/alice/.guts/pidfiles/watch-_srv_a.pid".toList, "watch".toList],
       .log " done@(dim:.)\n".toList,
       .deleteFile "/home/alice/.guts/pidfiles/watch-_srv_a.pid".toList] := by decide
example : hexBytes (md5.Sum (toBytes "abc".toList)).bytes
    = "900150983cd24fb0d6963f7d28e17f72".toList := by decide
example : hexBytes (md5.Sum (toBytes [])).bytes
    = "d41d8cd98f00b204e9800998ecf8427e".toList := by decide
set_option maxRecDepth 100000 in
example : hexBytes (md5.Sum (toBytes ("12345678901234567890123456789012345678901234567890"
    ++ "123456789012345678901234567890").toList)).bytes
    = "57edf4a22be3c955ac49da2e2107b67a".toList := by decide

example : (SyncContext.ParseSyncPath (some "bob".toList) localEndpoint
    "host1:/a/b".toList).toOption.map (fun c => (c.Username, c.Hostname, c.syncPath))
    = some ("bob".toList, "host1".toList, "/a/b".toList) := by decide
example : (SyncContext.ParseSyncPath none localEndpoint
    "a:b@c:d".toList).toOption.map (fun c => (c.Username, c.Hostname, c.syncPath))
    = some ("a:b".toList, "c".toList, "d".toList) := by decide
example : (SyncContext.ParseSyncPath none localEndpoint []).toOption.isNone = true := by
  decide
example : (SyncContext.ParseSyncPath none localEndpoint "x\ny".toList).toOption.isNone
    = true := by decide
example : remotePathRegexp.FindStringSubmatch 5 "alice@host1:/a/b".toList
    = ["alice@host1:/a/b".toList, "alice@host1:".toList, "alice@".toList, "alice".toList,
       "host1".toList, "/a/b".toList] := by decide
example : (SyncContext.ParseSyncPath none (NewSyncContext (NewExecContext false [] id) []).1
    "alice@host1:/a/b".toList).toOption.map (fun c => (c.Username, c.Hostname, c.syncPath))
    = some ("alice".toList, "host1".toList, "/a/b".toList) := by decide

/-! ## The matcher on `remotePathRegexp` -/

theorem runPlus_head (cls : Char → Bool) (u : Str) :
    ∀ (pos : Nat) (t : Str), u ≠ [] → (∀ c ∈ u, cls c = true) →
      (∀ d t', t = d :: t' → cls d = false) →
      (Regexp.runPlus cls pos (u ++ t)).head? = some (pos + u.length, t) := by
  induction u with
  | nil => intro pos t h; exact absurd rfl h
  | cons c u ih =>
    intro pos t _ hall hstop
    have hc : cls c = true := hall c (List.mem_cons_self _ _)
    show (Regexp.runPlus cls pos (c :: (u ++ t))).head? = _
    simp only [Regexp.runPlus, hc, if_true, List.head?_append]
    by_cases hu : u = []
    · subst hu
      have hnil : Regexp.runPlus cls (pos + 1) t = [] := by
        cases t with
        | nil => rfl
        | cons d t' => simp [Regexp.runPlus, hstop d t' rfl]
      simp [hnil]
    · have := ih (pos + 1) t hu (fun d hd => hall d (List.mem_cons_of_mem _ hd)) hstop
      simp only [List.nil_append] at this ⊢
      rw [this]
      simp only [List.length_cons, Option.or_some]
      congr 2
      omega

theorem runPlus_suffix (cls : Char → Bool) (s : Str) :
    ∀ (pos : Nat) (pr : Nat × Str), pr ∈ Regexp.runPlus cls pos s → pr.2 <:+ s := by
  induction s with
  | nil => intro pos pr h; simp [Regexp.runPlus] at h
  | cons c t ih =>
    intro pos pr h
    simp only [Regexp.runPlus] at h
    split at h
    · rcases List.mem_append.1 h with h | h
      · exact (ih _ _ h).trans (List.suffix_cons c t)
      · simp only [List.mem_singleton] at h
        subst h
        exact List.suffix_cons c t
    · simp at h

theorem exec_suffix (r : Regexp) :
    ∀ (th th' : Thread), th' ∈ r.exec th → th'.rest <:+ th.rest := by
  induction r with
  | bol =>
    intro th th' h
    simp only [Regexp.exec] at h
    split at h
    · simp only [List.mem_singleton] at h
      subst h
      exact List.suffix_refl _
    · simp at h
  | eol =>
    intro th th' h
    simp only [Regexp.exec] at h
    split at h
    · simp only [List.mem_singleton] at h
      subst h
      exact List.suffix_refl _
    · simp at h
  | lit c =>
    intro th th' h
    simp only [Regexp.exec] at h
    split at h
    · rename_i d t heq
      split at h
      · simp only [List.mem_singleton] at h
        subst h
        rw [heq]
        exact List.suffix_cons d t
      · simp at h
    · simp at h
  | plus cls =>
    intro th th' h
    simp only [Regexp.exec, List.mem_map] at h
    obtain ⟨pr, hpr, rfl⟩ := h
    exact runPlus_suffix cls _ _ _ hpr
  | quest r ih =>
    intro th th' h
    simp only [Regexp.exec, List.mem_append, List.mem_singleton] at h
    rcases h with h | h
    · exact ih _ _ h
    · subst h
      exact List.suffix_refl _
  | cat a b iha ihb =>
    intro th th' h
    simp only [Regexp.exec, List.mem_flatMap] at h
    obtain ⟨th1, h1, h2⟩ := h
    exact (ihb _ _ h2).trans (iha _ _ h1)
  | cap i r ih =>
    intro th th' h
    simp only [Regexp.exec, List.mem_map] at h
    obtain ⟨th1, h1, rfl⟩ := h
    exact ih th th1 h1

theorem head?_cat {a b : Regexp} {th th1 th2 : Thread}
    (h1 : (a.exec th).head? = some th1) (h2 : (b.exec th1).head? = some th2) :
    ((Regexp.cat a b).exec th).head? = some th2 := by
  simp only [Regexp.exec]
  cases hl : a.exec th with
  | nil => simp [hl] at h1
  | cons x l =>
    simp only [hl, List.head?_cons, Option.some.injEq] at h1
    subst h1
    simp [List.flatMap_cons, List.head?_append, h2]

theorem head?_quest {r : Regexp} {th th1 : Thread}
    (h1 : (r.exec th).head? = some th1) : ((Regexp.quest r).exec th).head? = some th1 := by
  simp [Regexp.exec, List.head?_append, h1]

theorem head?_quest_nil {r : Regexp} {th : Thread}
    (h1 : r.exec th = []) : ((Regexp.quest r).exec th).head? = some th := by
  simp [Regexp.exec, h1]

theorem head?_cap {i : Nat} {r : Regexp} {th th1 : Thread}
    (h1 : (r.exec th).head? = some th1) :
    ((Regexp.cap i r).exec th).head? =
      some { th1 with caps := th1.caps.set i (th.rest.take (th1.pos - th.pos)) } := by
  simp [Regexp.exec, List.head?_map, h1]

theorem head?_lit (c : Char) (pos : Nat) (t : Str) (caps : List Str) :
    ((Regexp.lit c).exec { pos := pos, rest := c :: t, caps := caps }).head? =
      some { pos := pos + 1, rest := t, caps := caps } := by
  simp [Regexp.exec]

/-- A captured greedy run: `(cls+)` takes the whole run `u` when the text after it is
empty or starts with a character outside the class. -/
theorem head?_cap_plus (i : Nat) (cls : Char → Bool) (u t : Str) (pos : Nat)
    (caps : List Str) (hu : u ≠ []) (hall : ∀ c ∈ u, cls c = true)
    (hstop : ∀ d t', t = d :: t' → cls d = false) :
    ((Regexp.cap i (Regexp.plus cls)).exec { pos := pos, rest := u ++ t, caps := caps }).head? =
      some { pos := pos + u.length, rest := t, caps := caps.set i u } := by
  have h1 : ((Regexp.plus cls).exec { pos := pos, rest := u ++ t, caps := caps }).head? =
      some { pos := pos + u.length, rest := t, caps := caps } := by
    simp [Regexp.exec, List.head?_map, runPlus_head cls u pos t hu hall hstop]
  rw [head?_cap h1]
  simp

theorem exec_cat_lit_nil (r : Regexp) (c : Char) (th : Thread) (h : c ∉ th.rest) :
    (Regexp.cat r (Regexp.lit c)).exec th = [] := by
  simp only [Regexp.exec, List.flatMap_eq_nil_iff]
  intro th1 h1
  have hs := exec_suffix r th th1 h1
  cases hr : th1.rest with
  | nil => rfl
  | cons d t =>
    have hd : d ∈ th.rest := hs.subset (by rw [hr]; exact List.mem_cons_self _ _)
    have hne : d ≠ c := fun e => h (e ▸ hd)
    simp [hne]

theorem exec_cat_nil {a b : Regexp} {th : Thread}
    (h : ∀ th1 ∈ a.exec th, b.exec th1 = []) : (Regexp.cat a b).exec th = [] := by
  simp only [Regexp.exec, List.flatMap_eq_nil_iff]
  exact h

theorem findFrom_of_matchAt {re : Regexp} {n pos : Nat} {s : Str} {parts : List Str}
    (h : re.matchAt n pos s = some parts) : re.findFrom n pos s = parts := by
  cases s with
  | nil => simp [Regexp.findFrom, h]
  | cons c t => simp [Regexp.findFrom, h]

theorem head?_cap_plus_end (i : Nat) (cls : Char → Bool) (u : Str) (pos : Nat)
    (caps : List Str) (hu : u ≠ []) (hall : ∀ c ∈ u, cls c = true) :
    ((Regexp.cap i (Regexp.plus cls)).exec { pos := pos, rest := u, caps := caps }).head? =
      some { pos := pos + u.length, rest := [], caps := caps.set i u } := by
  have := head?_cap_plus i cls u [] pos caps hu hall (fun d t' h => by simp at h)
  simpa using this

theorem head?_eol (pos : Nat) (caps : List Str) :
    (Regexp.eol.exec { pos := pos, rest := [], caps := caps }).head? =
      some { pos := pos, rest := [], caps := caps } := by
  simp [Regexp.exec]

/-- The submatches of an address `u@h:p`. -/
theorem FindStringSubmatch_remote (u h p : Str) (hu : u ≠ []) (hu' : '@' ∉ u)
    (hh : h ≠ []) (hh' : ':' ∉ h) (hp : p ≠ []) (hp' : '\n' ∉ p) :
    remotePathRegexp.FindStringSubmatch 5 (u ++ '@' :: (h ++ ':' :: p)) =
      [u ++ '@' :: (h ++ ':' :: p), u ++ '@' :: (h ++ [':']), u ++ ['@'], u, h, p] := by
  have a3 := head?_cap_plus 3 (fun c => c != '@') u ('@' :: (h ++ ':' :: p)) 0
    (List.replicate (5 + 1) []) hu
    (fun c hc => by
      have : c ≠ '@' := fun e => hu' (e ▸ hc)
      simpa using this)
    (fun d t' e => by
      simp only [List.cons.injEq] at e
      simp [← e.1])
  have g2 := head?_cap (i := 2) (head?_cat a3 (head?_lit '@' _ _ _))
  have a4 := head?_cap_plus 4 (fun c => c != ':') h (':' :: p) (0 + u.length + 1)
    (((List.replicate (5 + 1) ([] : Str)).set 3 u).set 2
      ((u ++ '@' :: (h ++ ':' :: p)).take (0 + u.length + 1 - 0))) hh
    (fun c hc => by
      have : c ≠ ':' := fun e => hh' (e ▸ hc)
      simpa using this)
    (fun d t' e => by
      simp only [List.cons.injEq] at e
      simp [← e.1])
  have g1 := head?_cap (i := 1) (head?_cat (head?_quest g2) (head?_cat a4 (head?_lit ':' _ _ _)))
  have a5 := head?_cap_plus_end 5 (fun c => c != '\n') p (0 + u.length + 1 + h.length + 1)
    (((((List.replicate (5 + 1) ([] : Str)).set 3 u).set 2
      ((u ++ '@' :: (h ++ ':' :: p)).take (0 + u.length + 1 - 0))).set 4 h).set 1
      ((u ++ '@' :: (h ++ ':' :: p)).take (0 + u.length + 1 + h.length + 1 - 0))) hp
    (fun c hc => by
      have : c ≠ '\n' := fun e => hp' (e ▸ hc)
      simpa using this)
  have hbol : (Regexp.bol.exec
      (Thread.mk 0 (u ++ '@' :: (h ++ ':' :: p)) (List.replicate (5 + 1) []))).head? =
      some (Thread.mk 0 (u ++ '@' :: (h ++ ':' :: p)) (List.replicate (5 + 1) [])) := by
    simp [Regexp.exec]
  have hall := head?_cat hbol (head?_cat (head?_quest g1) (head?_cat a5 (head?_eol _ _)))
  apply findFrom_of_matchAt
  unfold Regexp.matchAt
  unfold remotePathRegexp
  rw [hall]
  have e1 : (u ++ '@' :: (h ++ ':' :: p)).take (u.length + 1) = u ++ ['@'] := by
    have e : u ++ '@' :: (h ++ ':' :: p) = (u ++ ['@']) ++ (h ++ ':' :: p) := by simp
    rw [e]
    exact List.take_left' (by simp)
  have e2 : (u ++ '@' :: (h ++ ':' :: p)).take (u.length + 1 + h.length + 1) =
      u ++ '@' :: (h ++ [':']) := by
    have e : u ++ '@' :: (h ++ ':' :: p) = (u ++ '@' :: (h ++ [':'])) ++ p := by simp
    rw [e]
    exact List.take_left' (by simp; omega)
  have e3 : (u ++ '@' :: (h ++ ':' :: p)).take (u.length + 1 + h.length + 1 + p.length) =
      u ++ '@' :: (h ++ ':' :: p) :=
    List.take_of_length_le (by simp; omega)
  simp [List.replicate, e1, e2, e3]

/-- The submatches of an address without `:`: only the path group takes part. -/
theorem FindStringSubmatch_local (s : Str) (hs : s ≠ []) (hc : ':' ∉ s) (hn : '\n' ∉ s) :
    remotePathRegexp.FindStringSubmatch 5 s = [s, [], [], [], [], s] := by
  have hg1 : (Regexp.cap 1
      (Regexp.cat
        (Regexp.quest (Regexp.cap 2
          (Regexp.cat (Regexp.cap 3 (Regexp.plus (fun c => c != '@'))) (Regexp.lit '@'))))
        (Regexp.cat (Regexp.cap 4 (Regexp.plus (fun c => c != ':'))) (Regexp.lit ':')))).exec
      (Thread.mk 0 s (List.replicate (5 + 1) [])) = [] := by
    have hx : (Regexp.cat
        (Regexp.quest (Regexp.cap 2
          (Regexp.cat (Regexp.cap 3 (Regexp.plus (fun c => c != '@'))) (Regexp.lit '@'))))
        (Regexp.cat (Regexp.cap 4 (Regexp.plus (fun c => c != ':'))) (Regexp.lit ':'))).exec
        (Thread.mk 0 s (List.replicate (5 + 1) [])) = [] := by
      apply exec_cat_nil
      intro th1 h1
      apply exec_cat_lit_nil
      intro hmem
      exact hc ((exec_suffix _ _ _ h1).subset hmem)
    rw [Regexp.exec, hx]
    rfl
  have a5 := head?_cap_plus_end 5 (fun c => c != '\n') s 0 (List.replicate (5 + 1) []) hs
    (fun c hc' => by
      have : c ≠ '\n' := fun e => hn (e ▸ hc')
      simpa using this)
  have hbol : (Regexp.bol.exec (Thread.mk 0 s (List.replicate (5 + 1) []))).head? =
      some (Thread.mk 0 s (List.replicate (5 + 1) [])) := by
    simp [Regexp.exec]
  have hall := head?_cat hbol (head?_cat (head?_quest_nil hg1) (head?_cat a5 (head?_eol _ _)))
  apply findFrom_of_matchAt
  unfold Regexp.matchAt
  unfold remotePathRegexp
  rw [hall]
  simp [List.replicate]

/-! ## Address parsing -/

theorem ParseSyncPath_remote_eq (currentUser : Option Str) (ctx : SyncContext) (u h p : Str)
    (hu : u ≠ []) (hu' : '@' ∉ u) (hh : h ≠ []) (hh' : ':' ∉ h) (hp : p ≠ [])
    (hp' : '\n' ∉ p) :
    ctx.ParseSyncPath currentUser (u ++ '@' :: (h ++ ':' :: p)) =
      .ok { (ctx.SetUsername u).SetHostname h with syncPath := p } := by
  have hlen : 0 < u.length := List.length_pos.2 hu
  simp only [SyncContext.ParseSyncPath, FindStringSubmatch_remote u h p hu hu' hh hh' hp hp']
  simp [hlen]

theorem ParseSyncPath_local_eq (currentUser : Option Str) (ctx : SyncContext) (s : Str)
    (hs : s ≠ []) (hc : ':' ∉ s) (hn : '\n' ∉ s) :
    ctx.ParseSyncPath currentUser s = .ok { ctx with syncPath := s } := by
  simp only [SyncContext.ParseSyncPath, FindStringSubmatch_local s hs hc hn]
  simp

/-- C3: for a non-empty user `u` without `@`, a non-empty host `h` without `:` and a
non-empty path `p` without a line feed, `ParseSyncPath` on `u@h:p` returns no error and
leaves the endpoint with username `u`, hostname `h` and syncPath `p`. -/
theorem ParseSyncPath_remote (currentUser : Option Str) (ctx : SyncContext) (u h p : Str)
    (hu : u ≠ []) (hu' : '@' ∉ u) (hh : h ≠ []) (hh' : ':' ∉ h) (hp : p ≠ [])
    (hp' : '\n' ∉ p) :
    ∃ ctx', ctx.ParseSyncPath currentUser (u ++ "@".toList ++ h ++ ":".toList ++ p) = .ok ctx' ∧
      ctx'.Username = u ∧ ctx'.Hostname = h ∧ ctx'.syncPath = p := by
  have e : u ++ "@".toList ++ h ++ ":".toList ++ p = u ++ '@' :: (h ++ ':' :: p) := by
    simp
  rw [e]
  exact ⟨_, ParseSyncPath_remote_eq currentUser ctx u h p hu hu' hh hh' hp hp', rfl, rfl, rfl⟩

/-- C3, witness: `alice@host1:/a/b` gives `alice`, `host1`, `/a/b`. -/
theorem ParseSyncPath_remote_witness :
    ∃ ctx', localEndpoint.ParseSyncPath none "alice@host1:/a/b".toList = .ok ctx' ∧
      ctx'.Username = "alice".toList ∧ ctx'.Hostname = "host1".toList ∧
      ctx'.syncPath = "/a/b".toList :=
  ParseSyncPath_remote none localEndpoint "alice".toList "host1".toList "/a/b".toList
    (by decide) (by decide) (by decide) (by decide) (by decide) (by decide)

/-- C4: for a non-empty address without `:` and without a line feed, `ParseSyncPath`
returns no error; on a newly created endpoint the result is local, with empty hostname
and username, and the syncPath is the whole address. On any endpoint the call leaves
hostname and username as they were. -/
theorem ParseSyncPath_local (currentUser : Option Str) (s : Str) (hs : s ≠ [])
    (hc : ':' ∉ s) (hn : '\n' ∉ s) :
    (∀ (isWindows : Bool) (watchedRoot : Str) (absPath : Str → Str) (all : List SyncContext),
      ∃ ctx', (NewSyncContext (NewExecContext isWindows watchedRoot absPath) all).1.ParseSyncPath
          currentUser s = .ok ctx' ∧
        ctx'.Hostname = [] ∧ ctx'.Username = [] ∧ ctx'.IsLocal = true ∧ ctx'.syncPath = s) ∧
    (∀ ctx : SyncContext, ∃ ctx', ctx.ParseSyncPath currentUser s = .ok ctx' ∧
      ctx'.Hostname = ctx.Hostname ∧ ctx'.Username = ctx.Username ∧ ctx'.syncPath = s) := by
  constructor
  · intro w r a all
    exact ⟨_, ParseSyncPath_local_eq currentUser _ s hs hc hn, rfl, rfl, rfl, rfl⟩
  · intro ctx
    exact ⟨_, ParseSyncPath_local_eq currentUser ctx s hs hc hn, rfl, rfl, rfl⟩

/-- C4, witness: `/local/path` on a new endpoint gives a local endpoint with that path. -/
theorem ParseSyncPath_local_witness :
    ∃ ctx', (NewSyncContext (NewExecContext false "/srv/a".toList id) []).1.ParseSyncPath none
        "/local/path".toList = .ok ctx' ∧
      ctx'.Hostname = [] ∧ ctx'.Username = [] ∧ ctx'.IsLocal = true ∧
      ctx'.syncPath = "/local/path".toList :=
  (ParseSyncPath_local none "/local/path".toList (by decide) (by decide) (by decide)).1
    false "/srv/a".toList id []

/-! ## Killing one daemon -/

theorem KillViaPidfile_missing_eq (env : Env) (ctx : SyncContext) (name : Str) (m : Machine)
    (h : m.files (ctx.getPidfilePath env name) = none) :
    ctx.KillViaPidfile env name m =
      (some ("open ".toList ++ ctx.getPidfilePath env name
          ++ ": no such file or directory".toList),
        { files := m.files, trace := m.trace ++ [.readFile (ctx.getPidfilePath env name)] }) := by
  simp [SyncContext.KillViaPidfile, ReadFile, h, Machine.emit]

theorem KillViaPidfile_invalid_eq (env : Env) (ctx : SyncContext) (name : Str) (m : Machine)
    (v : Str) (h : m.files (ctx.getPidfilePath env name) = some v) (hv : ParseInt v 32 = none) :
    ctx.KillViaPidfile env name m =
      (none,
        { files := m.files,
          trace := m.trace ++ [.readFile (ctx.getPidfilePath env name),
            .log ("@(error:Ignoring pidfile for) ".toList ++ name
              ++ " @(error:due to invalid contents [".toList ++ v ++ "])\n".toList)] }) := by
  simp [SyncContext.KillViaPidfile, ReadFile, h, hv, Machine.emit, Printf]

theorem KillViaPidfile_run_error_eq (env : Env) (ctx : SyncContext) (name : Str) (m : Machine)
    (v : Str) (pid : Int) (err : Str) (h : m.files (ctx.getPidfilePath env name) = some v)
    (hv : ParseInt v 32 = some pid)
    (hrun : env.run (m.emit (.readFile (ctx.getPidfilePath env name)))
      ["pgrep".toList, "-F".toList, ctx.getPidfilePath env name, name] = .error err) :
    ctx.KillViaPidfile env name m =
      (some err,
        { files := m.files,
          trace := m.trace ++ [.readFile (ctx.getPidfilePath env name),
            .run ["pgrep".toList, "-F".toList, ctx.getPidfilePath env name, name]] }) := by
  simp only [SyncContext.KillViaPidfile, ReadFile, h, hv, Run, hrun]
  simp [Machine.emit]

theorem DeleteFile_trace (env : Env) (path : Str) (m : Machine) :
    (DeleteFile env path m).2.trace = m.trace ++ [.deleteFile path] := by
  unfold DeleteFile
  split <;> rfl

theorem DeleteFile_files_ne (env : Env) (path : Str) (m : Machine) (q : Str) (hq : q ≠ path) :
    (DeleteFile env path m).2.files q = m.files q := by
  unfold DeleteFile
  split
  · rfl
  · simp [hq]

theorem DeleteFile_files_ok (env : Env) (path : Str) (m : Machine)
    (h : env.deleteFile m path = none) : (DeleteFile env path m).2.files path = none := by
  simp [DeleteFile, h]

theorem DeleteFile_files_fail (env : Env) (path : Str) (m : Machine) (err : Str)
    (h : env.deleteFile m path = some err) : (DeleteFile env path m).2.files = m.files := by
  simp [DeleteFile, h, Machine.emit]

theorem KillViaPidfile_stale_eq (env : Env) (ctx : SyncContext) (name : Str) (m : Machine)
    (v : Str) (pid retCode : Int) (h : m.files (ctx.getPidfilePath env name) = some v)
    (hv : ParseInt v 32 = some pid)
    (hrun : env.run (m.emit (.readFile (ctx.getPidfilePath env name)))
      ["pgrep".toList, "-F".toList, ctx.getPidfilePath env name, name] = .ok retCode)
    (hrc : retCode ≠ 0) :
    ctx.KillViaPidfile env name m =
      (none,
        (DeleteFile env (ctx.getPidfilePath env name)
          ((m.emit (.readFile (ctx.getPidfilePath env name))).emit
            (.run ["pgrep".toList, "-F".toList, ctx.getPidfilePath env name, name]))).2) := by
  simp only [SyncContext.KillViaPidfile, ReadFile, h, hv, Run, hrun, hrc, if_false]

theorem KillViaPidfile_alive_eq (env : Env) (ctx : SyncContext) (name : Str) (m : Machine)
    (v : Str) (pid : Int) (h : m.files (ctx.getPidfilePath env name) = some v)
    (hv : ParseInt v 32 = some pid)
    (hrun : env.run (m.emit (.readFile (ctx.getPidfilePath env name)))
      ["pgrep".toList, "-F".toList, ctx.getPidfilePath env name, name] = .ok 0) :
    ∃ msg1 msg2,
    ctx.KillViaPidfile env name m =
      (none,
        (DeleteFile env (ctx.getPidfilePath env name)
          (((((m.emit (.readFile (ctx.getPidfilePath env name))).emit
            (.run ["pgrep".toList, "-F".toList, ctx.getPidfilePath env name, name])).emit
            (.log msg1)).emit
            (.quote "pkill".toList
              ["pkill".toList, "-F".toList, ctx.getPidfilePath env name, name])).emit
            (.log msg2))).2) := by
  simp only [SyncContext.KillViaPidfile, ReadFile, h, hv, Run, hrun, if_true, Quote]
  split
  · rename_i err m4 heq
    simp only [Prod.mk.injEq] at heq
    refine ⟨"@(dim)Killing ".toList ++ name ++ " (pid ".toList ++ fmtInt pid
      ++ ")...@(r)".toList, " @(error:failed, ".toList ++ err ++ ")@(dim:.)\n".toList, ?_⟩
    rw [← heq.2]
    rfl
  · rename_i rc m4 heq
    simp only [Prod.mk.injEq] at heq
    refine ⟨"@(dim)Killing ".toList ++ name ++ " (pid ".toList ++ fmtInt pid
      ++ ")...@(r)".toList, " done@(dim:.)\n".toList, ?_⟩
    rw [← heq.2]
    rfl

/-- C6: when the pidfile for the name and the current scope does not exist,
`KillViaPidfile` returns the error of the failed read, the files are exactly as before,
and the only call made is that read: nothing is written or deleted and neither `pgrep`
nor `pkill` is run. -/
theorem KillViaPidfile_missing (env : Env) (ctx : SyncContext) (name : Str) (m : Machine)
    (h : m.files (ctx.getPidfilePath env name) = none) :
    (∃ err, (ctx.KillViaPidfile env name m).1 = some err) ∧
    (ctx.KillViaPidfile env name m).2.files = m.files ∧
    (ctx.KillViaPidfile env name m).2.trace =
      m.trace ++ [.readFile (ctx.getPidfilePath env name)] := by
  rw [KillViaPidfile_missing_eq env ctx name m h]
  exact ⟨⟨_, rfl⟩, rfl, rfl⟩

/-- C6, witness: there is no pidfile for `nosuch` on the demo host. -/
theorem KillViaPidfile_missing_witness :
    (∃ err, (localEndpoint.KillViaPidfile demoEnv "nosuch".toList demoMachine).1 = some err) ∧
    (localEndpoint.KillViaPidfile demoEnv "nosuch".toList demoMachine).2.files
      = demoMachine.files ∧
    (localEndpoint.KillViaPidfile demoEnv "nosuch".toList demoMachine).2.trace =
      demoMachine.trace ++ [.readFile (localEndpoint.getPidfilePath demoEnv "nosuch".toList)] :=
  KillViaPidfile_missing demoEnv localEndpoint "nosuch".toList demoMachine (by decide)

/-- C5, as the code has it: when the pidfile exists, its contents parse as a 32 bit decimal
integer and the `pgrep` liveness check runs and finds no process (non-zero return code),
`KillViaPidfile` returns `nil`, the calls made are the read, the `pgrep` and the
`DeleteFile` (`pkill` is not run), and every other file is as before. The pidfile is
gone when that `DeleteFile` succeeds; when it fails the error is discarded and the
pidfile is still there with its contents. -/
theorem KillViaPidfile_stale (env : Env) (ctx : SyncContext) (name : Str) (m : Machine)
    (v : Str) (pid retCode : Int) (h : m.files (ctx.getPidfilePath env name) = some v)
    (hv : ParseInt v 32 = some pid)
    (hrun : env.run (m.emit (.readFile (ctx.getPidfilePath env name)))
      ["pgrep".toList, "-F".toList, ctx.getPidfilePath env name, name] = .ok retCode)
    (hrc : retCode ≠ 0) :
    (ctx.KillViaPidfile env name m).1 = none ∧
    (ctx.KillViaPidfile env name m).2.trace =
      m.trace ++ [.readFile (ctx.getPidfilePath env name),
        .run ["pgrep".toList, "-F".toList, ctx.getPidfilePath env name, name],
        .deleteFile (ctx.getPidfilePath env name)] ∧
    (∀ q, q ≠ ctx.getPidfilePath env name →
      (ctx.KillViaPidfile env name m).2.files q = m.files q) ∧
    (env.deleteFile
        ((m.emit (.readFile (ctx.getPidfilePath env name))).emit
          (.run ["pgrep".toList, "-F".toList, ctx.getPidfilePath env name, name]))
        (ctx.getPidfilePath env name) = none →
      (ctx.KillViaPidfile env name m).2.files (ctx.getPidfilePath env name) = none) ∧
    (∀ err, env.deleteFile
        ((m.emit (.readFile (ctx.getPidfilePath env name))).emit
          (.run ["pgrep".toList, "-F".toList, ctx.getPidfilePath env name, name]))
        (ctx.getPidfilePath env name) = some err →
      (ctx.KillViaPidfile env name m).2.files (ctx.getPidfilePath env name) = some v) := by
  rw [KillViaPidfile_stale_eq env ctx name m v pid retCode h hv hrun hrc]
  refine ⟨rfl, ?_, ?_, ?_, ?_⟩
  · rw [DeleteFile_trace]
    simp [Machine.emit]
  · intro q hq
    rw [DeleteFile_files_ne env _ _ q hq]
    rfl
  · intro hd
    exact DeleteFile_files_ok env _ _ hd
  · intro err hd
    rw [DeleteFile_files_fail env _ _ err hd]
    exact h

/-- C5, witness: the daemon `stale` of the demo host, whose pid 777 is not running: its
pidfile is removed where deletes succeed and kept where they fail. -/
theorem KillViaPidfile_stale_witness :
    ((localEndpoint.KillViaPidfile demoEnv "stale".toList demoMachine).1 = none ∧
      (localEndpoint.KillViaPidfile demoEnv "stale".toList demoMachine).2.trace =
        demoMachine.trace ++ [.readFile (localEndpoint.getPidfilePath demoEnv "stale".toList),
          .run ["pgrep".toList, "-F".toList,
            localEndpoint.getPidfilePath demoEnv "stale".toList, "stale".toList],
          .deleteFile (localEndpoint.getPidfilePath demoEnv "stale".toList)] ∧
      (localEndpoint.KillViaPidfile demoEnv "stale".toList demoMachine).2.files
        (localEndpoint.getPidfilePath demoEnv "stale".toList) = none) ∧
    (localEndpoint.KillViaPidfile stuckEnv "stale".toList demoMachine).2.files
      (localEndpoint.getPidfilePath stuckEnv "stale".toList) = some "777".toList :=
  have h := KillViaPidfile_stale demoEnv localEndpoint "stale".toList demoMachine "777".toList
    777 1 (by decide) (by decide) rfl (by decide)
  have h' := KillViaPidfile_stale stuckEnv localEndpoint "stale".toList demoMachine
    "777".toList 777 1 (by decide) (by decide) rfl (by decide)
  ⟨⟨h.1, h.2.1, h.2.2.2.1 rfl⟩, h'.2.2.2.2 "permission denied".toList rfl⟩

/-- C5, counterexample: on the host where nothing can be deleted, the pidfile of `stale`
holds the decimal pid 777, `pgrep` runs and finds no process, `KillViaPidfile` returns
`nil` without running `pkill`, and the pidfile is not removed. -/
theorem KillViaPidfile_stale_kept_counterexample :
    demoMachine.files (localEndpoint.getPidfilePath stuckEnv "stale".toList)
      = some "777".toList ∧
    ParseInt "777".toList 32 = some 777 ∧
    (localEndpoint.KillViaPidfile stuckEnv "stale".toList demoMachine).1 = none ∧
    (localEndpoint.KillViaPidfile stuckEnv "stale".toList demoMachine).2.trace =
      [.readFile (localEndpoint.getPidfilePath stuckEnv "stale".toList),
        .run ["pgrep".toList, "-F".toList,
          localEndpoint.getPidfilePath stuckEnv "stale".toList, "stale".toList],
        .deleteFile (localEndpoint.getPidfilePath stuckEnv "stale".toList)] ∧
    (localEndpoint.KillViaPidfile stuckEnv "stale".toList demoMachine).2.files
      (localEndpoint.getPidfilePath stuckEnv "stale".toList) ≠ none := by
  decide

/-- C2, as the code has it: when the pidfile exists with contents `v`, then
(a) if `v` parses as a 32 bit decimal integer and the `pgrep` check runs, whatever its
return code and whatever the outcome of `pkill`, `KillViaPidfile` returns `nil` after
calling `DeleteFile` on the pidfile as its last call: the pidfile no longer exists
when deleting it succeeds, and every file is as it was when deleting it fails;
(b) if `v` does not parse, it logs the warning, makes no other call after the read,
returns `nil` and leaves every file, the pidfile included, as it was; (c) if `pgrep`
cannot be run, it returns that error and leaves every file as it was. -/
theorem KillViaPidfile_deletes (env : Env) (ctx : SyncContext) (name : Str) (m : Machine)
    (v : Str) (h : m.files (ctx.getPidfilePath env name) = some v) :
    (∀ pid retCode, ParseInt v 32 = some pid →
      env.run (m.emit (.readFile (ctx.getPidfilePath env name)))
        ["pgrep".toList, "-F".toList, ctx.getPidfilePath env name, name] = .ok retCode →
      (ctx.KillViaPidfile env name m).1 = none ∧
      (∃ calls, (ctx.KillViaPidfile env name m).2.trace =
        m.trace ++ calls ++ [.deleteFile (ctx.getPidfilePath env name)]) ∧
      ((∀ m', env.deleteFile m' (ctx.getPidfilePath env name) = none) →
        (ctx.KillViaPidfile env name m).2.files (ctx.getPidfilePath env name) = none) ∧
      ((∀ m', env.deleteFile m' (ctx.getPidfilePath env name) ≠ none) →
        (ctx.KillViaPidfile env name m).2.files = m.files)) ∧
    (ParseInt v 32 = none →
      (ctx.KillViaPidfile env name m).1 = none ∧
      (ctx.KillViaPidfile env name m).2.files = m.files ∧
      (ctx.KillViaPidfile env name m).2.trace =
        m.trace ++ [.readFile (ctx.getPidfilePath env name),
          .log ("@(error:Ignoring pidfile for) ".toList ++ name
            ++ " @(error:due to invalid contents [".toList ++ v ++ "])\n".toList)]) ∧
    (∀ pid err, ParseInt v 32 = some pid →
      env.run (m.emit (.readFile (ctx.getPidfilePath env name)))
        ["pgrep".toList, "-F".toList, ctx.getPidfilePath env name, name] = .error err →
      (ctx.KillViaPidfile env name m).1 = some err ∧
      (ctx.KillViaPidfile env name m).2.files = m.files) := by
  have hfail : ∀ m0 : Machine, m0.files = m.files →
      (∀ m', env.deleteFile m' (ctx.getPidfilePath env name) ≠ none) →
      (DeleteFile env (ctx.getPidfilePath env name) m0).2.files = m.files := by
    intro m0 h0 hd
    cases hdel : env.deleteFile m0 (ctx.getPidfilePath env name) with
    | none => exact absurd hdel (hd m0)
    | some err => rw [DeleteFile_files_fail env _ _ err hdel, h0]
  refine ⟨?_, ?_, ?_⟩
  · intro pid retCode hv hrun
    by_cases hrc : retCode = 0
    · subst hrc
      obtain ⟨msg1, msg2, e⟩ := KillViaPidfile_alive_eq env ctx name m v pid h hv hrun
      rw [e]
      refine ⟨rfl, ⟨[.readFile (ctx.getPidfilePath env name),
        .run ["pgrep".toList, "-F".toList, ctx.getPidfilePath env name, name],
        .log msg1,
        .quote "pkill".toList ["pkill".toList, "-F".toList, ctx.getPidfilePath env name, name],
        .log msg2], ?_⟩, fun hd => DeleteFile_files_ok env _ _ (hd _), hfail _ rfl⟩
      rw [DeleteFile_trace]
      simp [Machine.emit]
    · rw [KillViaPidfile_stale_eq env ctx name m v pid retCode h hv hrun hrc]
      refine ⟨rfl, ⟨[.readFile (ctx.getPidfilePath env name),
        .run ["pgrep".toList, "-F".toList, ctx.getPidfilePath env name, name]], ?_⟩,
        fun hd => DeleteFile_files_ok env _ _ (hd _), hfail _ rfl⟩
      rw [DeleteFile_trace]
      simp [Machine.emit]
  · intro hv
    rw [KillViaPidfile_invalid_eq env ctx name m v h hv]
    exact ⟨rfl, rfl, rfl⟩
  · intro pid err hv hrun
    rw [KillViaPidfile_run_error_eq env ctx name m v pid err h hv hrun]
    exact ⟨rfl, rfl⟩

/-- C2, witness: the running daemon `watch` of the demo host is killed and its pidfile
removed; where nothing can be deleted the pidfile stays; the unparsable pidfile of `bad`
is left alone. -/
theorem KillViaPidfile_deletes_witness :
    ((localEndpoint.KillViaPidfile demoEnv "watch".toList demoMachine).1 = none ∧
      (localEndpoint.KillViaPidfile demoEnv "watch".toList demoMachine).2.files
        (localEndpoint.getPidfilePath demoEnv "watch".toList) = none) ∧
    (localEndpoint.KillViaPidfile stuckEnv "watch".toList demoMachine).2.files
      = demoMachine.files ∧
    ((localEndpoint.KillViaPidfile demoEnv "bad".toList demoMachine).1 = none ∧
      (localEndpoint.KillViaPidfile demoEnv "bad".toList demoMachine).2.files
        = demoMachine.files) :=
  have hw := (KillViaPidfile_deletes demoEnv localEndpoint "watch".toList demoMachine
    "4242".toList (by decide)).1 4242 0 (by decide) rfl
  have hs := (KillViaPidfile_deletes stuckEnv localEndpoint "watch".toList demoMachine
    "4242".toList (by decide)).1 4242 0 (by decide) rfl
  have hb := (KillViaPidfile_deletes demoEnv localEndpoint "bad".toList demoMachine
    "garbage".toList (by decide)).2.1 (by decide)
  ⟨⟨hw.1, hw.2.2.1 (fun _ => rfl)⟩, hs.2.2.2 (fun _ h => nomatch h), hb.1, hb.2.1⟩

/-- C2, counterexample: the pidfile of `bad` exists and can be read, its contents are not
an integer, and it still exists after `KillViaPidfile` has returned. -/
theorem KillViaPidfile_keeps_invalid_counterexample :
    demoMachine.files (localEndpoint.getPidfilePath demoEnv "bad".toList)
      = some "garbage".toList ∧
    (localEndpoint.KillViaPidfile demoEnv "bad".toList demoMachine).1 = none ∧
    (localEndpoint.KillViaPidfile demoEnv "bad".toList demoMachine).2.files
      (localEndpoint.getPidfilePath demoEnv "bad".toList) = some "garbage".toList := by
  decide

/-! ## Pidfile names -/

theorem cut_eq_some (sep : Char) (s : Str) :
    ∀ a b, cut sep s = some (a, b) → s = a ++ sep :: b ∧ sep ∉ a := by
  induction s with
  | nil => intro a b h; simp [cut] at h
  | cons c t ih =>
    intro a b h
    simp only [cut] at h
    split at h
    · rename_i hc
      simp only [Option.some.injEq, Prod.mk.injEq] at h
      obtain ⟨rfl, rfl⟩ := h
      simp [hc]
    · rename_i hc
      split at h
      · rename_i a' b' heq
        simp only [Option.some.injEq, Prod.mk.injEq] at h
        obtain ⟨rfl, rfl⟩ := h
        obtain ⟨e, hn⟩ := ih a' b' heq
        refine ⟨by rw [e]; rfl, ?_⟩
        intro hmem
        rcases List.mem_cons.1 hmem with h1 | h1
        · exact hc h1.symm
        · exact hn h1
      · simp at h

theorem cut_append (sep : Char) (a : Str) :
    ∀ b, sep ∉ a → cut sep (a ++ sep :: b) = some (a, b) := by
  induction a with
  | nil => intro b _; simp [cut]
  | cons c t ih =>
    intro b h
    have hc : c ≠ sep := fun e => h (e ▸ List.mem_cons_self _ _)
    have ht : sep ∉ t := fun e => h (List.mem_cons_of_mem _ e)
    simp [cut, hc, ih b ht]

theorem cut_of_mem (sep : Char) (s : Str) : sep ∈ s → ∃ a b, cut sep s = some (a, b) := by
  induction s with
  | nil => intro h; simp at h
  | cons c t ih =>
    intro h
    by_cases hc : c = sep
    · exact ⟨[], t, by simp [cut, hc]⟩
    · have ht : sep ∈ t := by
        rcases List.mem_cons.1 h with h1 | h1
        · exact absurd h1.symm hc
        · exact h1
      obtain ⟨a, b, e⟩ := ih ht
      exact ⟨c :: a, b, by simp [cut, hc, e]⟩

theorem parsePidfileName_append (x : Str) :
    parsePidfileName (x ++ ".pid".toList) = cut '-' x := by
  have hsuf : HasSuffix (x ++ ".pid".toList) ".pid".toList = true := by
    simp only [HasSuffix, List.isSuffixOf_iff_suffix]
    exact ⟨x, rfl⟩
  have htake : (x ++ ".pid".toList).take ((x ++ ".pid".toList).length - ".pid".toList.length)
      = x := List.take_left' (by simp)
  simp only [parsePidfileName, hsuf, htake, SplitN]
  cases h : cut '-' x with
  | none => simp
  | some ab =>
    obtain ⟨a, b⟩ := ab
    simp

theorem parsePidfileName_some (f n sc : Str) (h : parsePidfileName f = some (n, sc)) :
    f = n ++ "-".toList ++ sc ++ ".pid".toList ∧ '-' ∉ n := by
  by_cases hsuf : HasSuffix f ".pid".toList = true
  · have hs := hsuf
    simp only [HasSuffix, List.isSuffixOf_iff_suffix] at hs
    obtain ⟨x, rfl⟩ := hs
    rw [parsePidfileName_append] at h
    obtain ⟨e, hn⟩ := cut_eq_some '-' x n sc h
    exact ⟨by rw [e]; simp, hn⟩
  · simp only [parsePidfileName, hsuf] at h
    simp at h

/-- C10: the pidfile that `SaveDaemonPid`/`getPidfilePath` use for a daemon name `n` is
the directory entry `n-<scope>.pid`, where a successful `SaveDaemonPid` leaves the pid in
decimal; the loop of `KillAllViaPidfiles` parses that entry
back to `(n, scope)` exactly when `n` has no `-`. When `n` has a `-`, the parsed name is
a proper initial segment of `n`, the parsed scope differs from the endpoint's scope, and
the loop skips the entry. -/
theorem pidfile_name_parse (env : Env) (ctx : SyncContext) (n : Str) :
    ctx.getPidfilePath env n =
      ctx.entryPath env (n ++ "-".toList ++ ctx.getPidfileScope ++ ".pid".toList) ∧
    (∀ (pid : Int) (m : Machine), env.mkdirp m env.PidfilesPath = none →
      env.writeFile (m.emit (.mkdirp env.PidfilesPath)) (ctx.getPidfilePath env n) (fmtInt pid)
        = none →
      (ctx.SaveDaemonPid env n pid m).1 = none ∧
      (ctx.SaveDaemonPid env n pid m).2.files
        (ctx.entryPath env (n ++ "-".toList ++ ctx.getPidfileScope ++ ".pid".toList))
        = some (fmtInt pid)) ∧
    (parsePidfileName (n ++ "-".toList ++ ctx.getPidfileScope ++ ".pid".toList)
        = some (n, ctx.getPidfileScope) ↔ '-' ∉ n) ∧
    ('-' ∈ n → ∃ n' s',
      parsePidfileName (n ++ "-".toList ++ ctx.getPidfileScope ++ ".pid".toList)
        = some (n', s') ∧
      n' <+: n ∧ n' ≠ n ∧ s' ≠ ctx.getPidfileScope ∧
      ∀ m : Machine, ctx.killAllStep env ctx.getPidfileScope m
        (n ++ "-".toList ++ ctx.getPidfileScope ++ ".pid".toList) = m) := by
  have hmem : '-' ∈ n → ∃ a b, n = a ++ '-' :: b ∧ '-' ∉ a ∧
      parsePidfileName (n ++ "-".toList ++ ctx.getPidfileScope ++ ".pid".toList)
        = some (a, b ++ '-' :: ctx.getPidfileScope) := by
    intro h
    obtain ⟨a, b, hab⟩ := cut_of_mem '-' n h
    obtain ⟨e, ha⟩ := cut_eq_some '-' n a b hab
    refine ⟨a, b, e, ha, ?_⟩
    rw [parsePidfileName_append]
    have e2 : n ++ "-".toList ++ ctx.getPidfileScope
        = a ++ '-' :: (b ++ '-' :: ctx.getPidfileScope) := by
      rw [e]
      simp
    rw [e2]
    exact cut_append '-' a _ ha
  refine ⟨rfl, ?_, ⟨?_, ?_⟩, ?_⟩
  · intro pid m h1 h2
    have e : ctx.entryPath env (n ++ "-".toList ++ ctx.getPidfileScope ++ ".pid".toList)
        = ctx.getPidfilePath env n := rfl
    rw [e]
    simp only [SyncContext.SaveDaemonPid, Mkdirp, h1, WriteFile, h2]
    simp
  · intro h hn
    obtain ⟨a, b, e, _, hp⟩ := hmem hn
    rw [hp] at h
    simp only [Option.some.injEq, Prod.mk.injEq] at h
    have hl := congrArg List.length h.2
    simp at hl
    omega
  · intro hn
    rw [parsePidfileName_append]
    have e2 : n ++ "-".toList ++ ctx.getPidfileScope = n ++ '-' :: ctx.getPidfileScope := by
      simp
    rw [e2]
    exact cut_append '-' n _ hn
  · intro hn
    obtain ⟨a, b, e, _, hp⟩ := hmem hn
    have hs : b ++ '-' :: ctx.getPidfileScope ≠ ctx.getPidfileScope := by
      intro h
      have hl := congrArg List.length h
      simp at hl
      omega
    refine ⟨a, b ++ '-' :: ctx.getPidfileScope, hp, ⟨'-' :: b, e.symm⟩, ?_, hs, ?_⟩
    · intro h
      have hl := congrArg List.length e
      rw [h] at hl
      simp at hl
    · intro m
      simp only [SyncContext.killAllStep, hp]
      simp [hs]

/-- C10, witness: the pidfile of a daemon named `gut-fetch` is parsed as the daemon `gut`
with another scope, and the loop skips it. -/
theorem pidfile_name_parse_witness :
    ∃ n' s',
      parsePidfileName ("gut-fetch".toList ++ "-".toList ++ remoteEndpoint.getPidfileScope
        ++ ".pid".toList) = some (n', s') ∧
      n' <+: "gut-fetch".toList ∧ n' ≠ "gut-fetch".toList ∧
      s' ≠ remoteEndpoint.getPidfileScope ∧
      ∀ m : Machine, remoteEndpoint.killAllStep demoEnv remoteEndpoint.getPidfileScope m
        ("gut-fetch".toList ++ "-".toList ++ remoteEndpoint.getPidfileScope
          ++ ".pid".toList) = m :=
  (pidfile_name_parse demoEnv remoteEndpoint "gut-fetch".toList).2.2.2 (by decide)

/-! ## Killing every daemon of the scope -/

/-- Whatever branch `KillViaPidfile name` takes, every call it makes besides logging is
on its own pidfile, and no other file changes. -/
theorem KillViaPidfile_frame (env : Env) (ctx : SyncContext) (name : Str) (m : Machine) :
    (∃ new, (ctx.KillViaPidfile env name m).2.trace = m.trace ++ new ∧
      ∀ e ∈ new, e.isLog ∨ e.onPidfile (ctx.getPidfilePath env name) name) ∧
    (∀ q, q ≠ ctx.getPidfilePath env name →
      (ctx.KillViaPidfile env name m).2.files q = m.files q) := by
  cases h : m.files (ctx.getPidfilePath env name) with
  | none =>
    rw [KillViaPidfile_missing_eq env ctx name m h]
    refine ⟨⟨_, rfl, ?_⟩, fun q _ => rfl⟩
    intro e he
    simp only [List.mem_singleton] at he
    exact Or.inr (Or.inl he)
  | some v =>
    cases hv : ParseInt v 32 with
    | none =>
      rw [KillViaPidfile_invalid_eq env ctx name m v h hv]
      refine ⟨⟨_, rfl, ?_⟩, fun q _ => rfl⟩
      intro e he
      simp only [List.mem_cons, List.mem_singleton, List.not_mem_nil, or_false] at he
      rcases he with he | he
      · exact Or.inr (Or.inl he)
      · exact Or.inl ⟨_, he⟩
    | some pid =>
      cases hrun : env.run (m.emit (.readFile (ctx.getPidfilePath env name)))
          ["pgrep".toList, "-F".toList, ctx.getPidfilePath env name, name] with
      | error err =>
        rw [KillViaPidfile_run_error_eq env ctx name m v pid err h hv hrun]
        refine ⟨⟨_, rfl, ?_⟩, fun q _ => rfl⟩
        intro e he
        simp only [List.mem_cons, List.mem_singleton, List.not_mem_nil, or_false] at he
        rcases he with he | he
        · exact Or.inr (Or.inl he)
        · exact Or.inr (Or.inr (Or.inl he))
      | ok retCode =>
        by_cases hrc : retCode = 0
        · subst hrc
          obtain ⟨msg1, msg2, e⟩ := KillViaPidfile_alive_eq env ctx name m v pid h hv hrun
          rw [e]
          refine ⟨⟨[.readFile (ctx.getPidfilePath env name),
            .run ["pgrep".toList, "-F".toList, ctx.getPidfilePath env name, name],
            .log msg1,
            .quote "pkill".toList
              ["pkill".toList, "-F".toList, ctx.getPidfilePath env name, name],
            .log msg2,
            .deleteFile (ctx.getPidfilePath env name)], ?_, ?_⟩,
            fun q hq => by rw [DeleteFile_files_ne env _ _ q hq]; rfl⟩
          · rw [DeleteFile_trace]
            simp [Machine.emit]
          intro e he
          simp only [List.mem_cons, List.mem_singleton, List.not_mem_nil, or_false] at he
          rcases he with he | he | he | he | he | he
          · exact Or.inr (Or.inl he)
          · exact Or.inr (Or.inr (Or.inl he))
          · exact Or.inl ⟨_, he⟩
          · exact Or.inr (Or.inr (Or.inr (Or.inl he)))
          · exact Or.inl ⟨_, he⟩
          · exact Or.inr (Or.inr (Or.inr (Or.inr he)))
        · rw [KillViaPidfile_stale_eq env ctx name m v pid retCode h hv hrun hrc]
          refine ⟨⟨[.readFile (ctx.getPidfilePath env name),
            .run ["pgrep".toList, "-F".toList, ctx.getPidfilePath env name, name],
            .deleteFile (ctx.getPidfilePath env name)], ?_, ?_⟩,
            fun q hq => by rw [DeleteFile_files_ne env _ _ q hq]; rfl⟩
          · rw [DeleteFile_trace]
            simp [Machine.emit]
          intro e he
          simp only [List.mem_cons, List.mem_singleton, List.not_mem_nil, or_false] at he
          rcases he with he | he | he
          · exact Or.inr (Or.inl he)
          · exact Or.inr (Or.inr (Or.inl he))
          · exact Or.inr (Or.inr (Or.inr (Or.inr he)))

/-- One turn of the loop either does nothing or is a `KillViaPidfile name` for a target
entry, framed by log lines. -/
theorem killAllStep_cases (env : Env) (ctx : SyncContext) (m : Machine) (f : Str) :
    ctx.killAllStep env ctx.getPidfileScope m f = m ∨
    ∃ name, ctx.killTarget f name ∧
      (∃ new, (ctx.killAllStep env ctx.getPidfileScope m f).trace = m.trace ++ new ∧
        ∀ e ∈ new, e.isLog ∨ e.onPidfile (ctx.getPidfilePath env name) name) ∧
      (∀ q, q ≠ ctx.getPidfilePath env name →
        (ctx.killAllStep env ctx.getPidfileScope m f).files q = m.files q) := by
  cases hp : parsePidfileName f with
  | none => exact Or.inl (by simp [SyncContext.killAllStep, hp])
  | some ns =>
    obtain ⟨name, scope⟩ := ns
    by_cases hgut : name = "gut".toList ∧ ctx.IsLocal = true
    · exact Or.inl (by simp [SyncContext.killAllStep, hp, hgut.1, hgut.2])
    · by_cases hsc : scope = [] ∨ scope ≠ ctx.getPidfileScope
      · left
        simp only [SyncContext.killAllStep, hp]
        rcases hsc with hsc | hsc
        · simp [hsc]
        · simp [hsc]
      · right
        have hsc1 : scope ≠ [] := fun e => hsc (Or.inl e)
        have hsc2 : scope = ctx.getPidfileScope := by
          by_contra e
          exact hsc (Or.inr e)
        have hgut' : ¬ ((name = "gut".toList && ctx.IsLocal) = true) := by
          simpa using hgut
        have hsc' : ¬ ((scope = [] || scope ≠ ctx.getPidfileScope) = true) := by
          simpa using hsc
        refine ⟨name, ⟨by rw [hp, hsc2], hsc2 ▸ hsc1, hgut⟩, ?_⟩
        obtain ⟨⟨new, htr, hnew⟩, hfiles⟩ := KillViaPidfile_frame env ctx name
          (Printf ("Killing process via pidfile ".toList
            ++ f.take (f.length - ".pid".toList.length) ++ "\n".toList) m)
        simp only [SyncContext.killAllStep, hp]
        rw [if_neg hgut', if_neg hsc']
        generalize ctx.KillViaPidfile env name (Printf ("Killing process via pidfile ".toList
            ++ f.take (f.length - ".pid".toList.length) ++ "\n".toList) m) = r at htr hfiles ⊢
        obtain ⟨o, m2⟩ := r
        simp only [Printf, Machine.emit] at htr hfiles
        cases o with
        | some err =>
          refine ⟨⟨[Effect.log ("Killing process via pidfile ".toList
              ++ f.take (f.length - ".pid".toList.length) ++ "\n".toList)] ++ new
              ++ [Effect.log ("Error killing ".toList ++ name
                ++ " process via pidfile: ".toList ++ err ++ "\n".toList)], ?_, ?_⟩, ?_⟩
          · simp only [Printf, Machine.emit, htr]
            simp
          · intro e he
            simp only [List.mem_cons, List.mem_append, List.mem_singleton,
              List.not_mem_nil, or_false] at he
            rcases he with (he | he) | he
            · exact Or.inl ⟨_, he⟩
            · exact hnew e he
            · exact Or.inl ⟨_, he⟩
          · intro q hq
            simp only [Printf, Machine.emit]
            exact hfiles q hq
        | none =>
          refine ⟨⟨[Effect.log ("Killing process via pidfile ".toList
              ++ f.take (f.length - ".pid".toList.length) ++ "\n".toList)] ++ new, ?_, ?_⟩, ?_⟩
          · simp only [htr, List.append_assoc]
          · intro e he
            simp only [List.mem_cons, List.mem_append, List.mem_singleton,
              List.not_mem_nil, or_false] at he
            rcases he with he | he
            · exact Or.inl ⟨_, he⟩
            · exact hnew e he
          · intro q hq
            exact hfiles q hq

/-- The whole loop: every call besides logging belongs to a `KillViaPidfile name` for a
target entry of the listing, and a file that is the pidfile of no target is unchanged. -/
theorem killAll_fold (env : Env) (ctx : SyncContext) (fs : List Str) :
    ∀ m : Machine, ∃ new,
      (fs.foldl (ctx.killAllStep env ctx.getPidfileScope) m).trace = m.trace ++ new ∧
      (∀ e ∈ new, e.isLog ∨ ∃ f ∈ fs, ∃ name, ctx.killTarget f name ∧
        e.onPidfile (ctx.getPidfilePath env name) name) ∧
      (∀ q, (∀ f ∈ fs, ∀ name, ctx.killTarget f name → q ≠ ctx.getPidfilePath env name) →
        (fs.foldl (ctx.killAllStep env ctx.getPidfileScope) m).files q = m.files q) := by
  induction fs with
  | nil =>
    intro m
    exact ⟨[], by simp, by simp, fun q _ => rfl⟩
  | cons f t ih =>
    intro m
    obtain ⟨new2, htr2, hnew2, hfiles2⟩ := ih (ctx.killAllStep env ctx.getPidfileScope m f)
    have lift : ∀ e ∈ new2, e.isLog ∨ ∃ g ∈ f :: t, ∃ name, ctx.killTarget g name ∧
        e.onPidfile (ctx.getPidfilePath env name) name := by
      intro e he
      rcases hnew2 e he with h | ⟨g, hg, name, h1, h2⟩
      · exact Or.inl h
      · exact Or.inr ⟨g, List.mem_cons_of_mem _ hg, name, h1, h2⟩
    rcases killAllStep_cases env ctx m f with hstep | ⟨name, htgt, ⟨new1, htr1, hnew1⟩, hfiles1⟩
    · refine ⟨new2, ?_, lift, ?_⟩
      · rw [List.foldl_cons, htr2, hstep]
      · intro q hq
        rw [List.foldl_cons, hfiles2 q (fun g hg => hq g (List.mem_cons_of_mem _ hg)), hstep]
    · refine ⟨new1 ++ new2, ?_, ?_, ?_⟩
      · rw [List.foldl_cons, htr2, htr1, List.append_assoc]
      · intro e he
        rcases List.mem_append.1 he with h | h
        · rcases hnew1 e h with h1 | h1
          · exact Or.inl h1
          · exact Or.inr ⟨f, List.mem_cons_self _ _, name, htgt, h1⟩
        · exact lift e h
      · intro q hq
        rw [List.foldl_cons, hfiles2 q (fun g hg => hq g (List.mem_cons_of_mem _ hg)),
          hfiles1 q (hq f (List.mem_cons_self _ _) name htgt)]

theorem KillAllViaPidfiles_eq (env : Env) (ctx : SyncContext) (m : Machine) (files : List Str)
    (hw : ctx.IsWindows = false)
    (hl : env.listDirectory m (ctx.AbsPath env.PidfilesPath) = .ok files) :
    ctx.KillAllViaPidfiles env m =
      .ok (files.foldl (ctx.killAllStep env ctx.getPidfileScope)
        (m.emit (.listDirectory (ctx.AbsPath env.PidfilesPath)))) := by
  simp [SyncContext.KillAllViaPidfiles, hw, ListDirectory, hl]

theorem onPidfile_path {p p' n n' : Str} {e : Effect} (h : e.onPidfile p n)
    (h' : e.onPidfile p' n') : p = p' := by
  rcases h with h | h | h | h <;> rcases h' with h' | h' | h' | h' <;> subst h <;>
    simp at h' <;> simp [h']

theorem killTarget_entry (env : Env) (ctx : SyncContext) (f name : Str)
    (h : ctx.killTarget f name) :
    f = name ++ "-".toList ++ ctx.getPidfileScope ++ ".pid".toList ∧
    ctx.getPidfilePath env name = ctx.entryPath env f := by
  have e := (parsePidfileName_some f name ctx.getPidfileScope h.1).1
  refine ⟨e, ?_⟩
  rw [e]
  rfl

/-- C1: on a non-Windows endpoint, for every listing of the pidfile directory, every
pidfile that `KillAllViaPidfiles` reads, checks or kills through, or deletes is the
pidfile `getPidfilePath name` of a listed entry `<name>-<scope>.pid` that parses to
`name` and the endpoint's current scope; and every listed entry whose scope part differs
from the current scope (and which no other listed entry shares its path with) has the
same contents afterwards as before. -/
theorem KillAllViaPidfiles_scope (env : Env) (ctx : SyncContext) (m : Machine)
    (files : List Str) (hw : ctx.IsWindows = false)
    (hl : env.listDirectory m (ctx.AbsPath env.PidfilesPath) = .ok files) :
    ∃ m' new, ctx.KillAllViaPidfiles env m = .ok m' ∧
      m'.trace = m.trace ++ [.listDirectory (ctx.AbsPath env.PidfilesPath)] ++ new ∧
      (∀ e ∈ new, e.isLog ∨ ∃ name,
        name ++ "-".toList ++ ctx.getPidfileScope ++ ".pid".toList ∈ files ∧
        parsePidfileName (name ++ "-".toList ++ ctx.getPidfileScope ++ ".pid".toList)
          = some (name, ctx.getPidfileScope) ∧
        ctx.getPidfilePath env name
          = ctx.entryPath env (name ++ "-".toList ++ ctx.getPidfileScope ++ ".pid".toList) ∧
        e.onPidfile (ctx.getPidfilePath env name) name) ∧
      (∀ f ∈ files, ∀ n sc, parsePidfileName f = some (n, sc) → sc ≠ ctx.getPidfileScope →
        (∀ g ∈ files, ctx.entryPath env g = ctx.entryPath env f → g = f) →
        m'.files (ctx.entryPath env f) = m.files (ctx.entryPath env f)) := by
  obtain ⟨new, htr, hnew, hfiles⟩ := killAll_fold env ctx files
    (m.emit (.listDirectory (ctx.AbsPath env.PidfilesPath)))
  refine ⟨_, new, KillAllViaPidfiles_eq env ctx m files hw hl, htr, ?_, ?_⟩
  · intro e he
    rcases hnew e he with h | ⟨f, hf, name, htgt, hon⟩
    · exact Or.inl h
    · obtain ⟨ef, _⟩ := killTarget_entry env ctx f name htgt
      exact Or.inr ⟨name, ef ▸ hf, ef ▸ htgt.1, rfl, hon⟩
  · intro f hf n sc hp hsc hinj
    rw [hfiles]
    · rfl
    · intro g hg name htgt hq
      obtain ⟨_, ep⟩ := killTarget_entry env ctx g name htgt
      have hgf : g = f := hinj g hg (by rw [← ep, ← hq])
      have h1 : parsePidfileName g = some (name, ctx.getPidfileScope) := htgt.1
      rw [hgf, hp] at h1
      simp only [Option.some.injEq, Prod.mk.injEq] at h1
      exact hsc h1.2

/-- C1, witness: on the demo host the local endpoint watching `/srv/a` leaves the pidfile
of the other scope, `watch-_srv_b.pid`, with its contents. -/
theorem KillAllViaPidfiles_scope_witness :
    ∃ m', localEndpoint.KillAllViaPidfiles demoEnv demoMachine = .ok m' ∧
      m'.files (localEndpoint.entryPath demoEnv "watch-_srv_b.pid".toList)
        = some "4343".toList := by
  obtain ⟨m', _, h1, _, _, h4⟩ := KillAllViaPidfiles_scope demoEnv localEndpoint demoMachine
    ["watch-_srv_a.pid".toList, "watch-_srv_b.pid".toList, "gut-_srv_a.pid".toList,
      "stale-_srv_a.pid".toList, "bad-_srv_a.pid".toList] rfl rfl
  refine ⟨m', h1, ?_⟩
  rw [h4 "watch-_srv_b.pid".toList (by decide) "watch".toList "_srv_b".toList (by decide)
    (by decide) (by decide)]
  decide

/-- C7: on a local endpoint `KillAllViaPidfiles` bails out on Windows and only logs when
the listing fails; otherwise every call it makes besides logging belongs to a
`KillViaPidfile name` with `name` different from `gut`, and for a listed entry whose
parsed name is `gut`, whatever its scope (and which no other listed entry shares its path
with), no read, `pgrep`, `pkill` or delete is made on its path and its contents are as
before. -/
theorem KillAllViaPidfiles_spares_gut (env : Env) (ctx : SyncContext) (m : Machine)
    (hlocal : ctx.IsLocal = true) :
    (ctx.IsWindows = true → ctx.KillAllViaPidfiles env m = .error "Not implemented".toList) ∧
    (∀ err, ctx.IsWindows = false →
      env.listDirectory m (ctx.AbsPath env.PidfilesPath) = .error err →
      ∃ msg, ctx.KillAllViaPidfiles env m =
        .ok { files := m.files,
              trace := m.trace ++ [.listDirectory (ctx.AbsPath env.PidfilesPath), .log msg] }) ∧
    (∀ files, ctx.IsWindows = false →
      env.listDirectory m (ctx.AbsPath env.PidfilesPath) = .ok files →
      ∃ m' new, ctx.KillAllViaPidfiles env m = .ok m' ∧
        m'.trace = m.trace ++ [.listDirectory (ctx.AbsPath env.PidfilesPath)] ++ new ∧
        (∀ e ∈ new, e.isLog ∨ ∃ name, name ≠ "gut".toList ∧
          e.onPidfile (ctx.getPidfilePath env name) name) ∧
        (∀ g ∈ files, ∀ sc, parsePidfileName g = some ("gut".toList, sc) →
          (∀ f ∈ files, ctx.entryPath env f = ctx.entryPath env g → f = g) →
          (∀ e ∈ new, ∀ n, ¬ e.onPidfile (ctx.entryPath env g) n) ∧
          m'.files (ctx.entryPath env g) = m.files (ctx.entryPath env g))) := by
  refine ⟨?_, ?_, ?_⟩
  · intro hw
    simp [SyncContext.KillAllViaPidfiles, hw]
  · intro err hw hl
    refine ⟨"Encountered error while listing pidfiles: ".toList ++ err ++ "\n".toList, ?_⟩
    simp [SyncContext.KillAllViaPidfiles, hw, ListDirectory, hl, Printf, Machine.emit]
  · intro files hw hl
    obtain ⟨new, htr, hnew, hfiles⟩ := killAll_fold env ctx files
      (m.emit (.listDirectory (ctx.AbsPath env.PidfilesPath)))
    have key : ∀ g ∈ files, ∀ sc, parsePidfileName g = some ("gut".toList, sc) →
        (∀ f ∈ files, ctx.entryPath env f = ctx.entryPath env g → f = g) →
        ∀ f ∈ files, ∀ name, ctx.killTarget f name →
          ctx.entryPath env g ≠ ctx.getPidfilePath env name := by
      intro g _ sc hp hinj f hf name htgt hq
      obtain ⟨_, ep⟩ := killTarget_entry env ctx f name htgt
      have hfg : f = g := hinj f hf (by rw [← ep, ← hq])
      have h1 : parsePidfileName f = some (name, ctx.getPidfileScope) := htgt.1
      rw [hfg, hp] at h1
      simp only [Option.some.injEq, Prod.mk.injEq] at h1
      exact htgt.2.2 ⟨h1.1.symm, hlocal⟩
    refine ⟨_, new, KillAllViaPidfiles_eq env ctx m files hw hl, htr, ?_, ?_⟩
    · intro e he
      rcases hnew e he with h | ⟨f, _, name, htgt, hon⟩
      · exact Or.inl h
      · exact Or.inr ⟨name, fun e => htgt.2.2 ⟨e, hlocal⟩, hon⟩
    · intro g hg sc hp hinj
      refine ⟨?_, ?_⟩
      · intro e he n hon
        rcases hnew e he with ⟨msg, h⟩ | ⟨f, hf, name, htgt, hon'⟩
        · subst h
          rcases hon with h | h | h | h <;> simp at h
        · exact key g hg sc hp hinj f hf name htgt (onPidfile_path hon hon')
      · rw [hfiles]
        · rfl
        · exact key g hg sc hp hinj

/-- C7, witness: on the demo host the local endpoint leaves `gut-_srv_a.pid`, an entry of
its own scope, with its contents. -/
theorem KillAllViaPidfiles_spares_gut_witness :
    ∃ m', localEndpoint.KillAllViaPidfiles demoEnv demoMachine = .ok m' ∧
      m'.files (localEndpoint.entryPath demoEnv "gut-_srv_a.pid".toList)
        = some "99".toList := by
  obtain ⟨m', _, h1, _, _, h4⟩ :=
    (KillAllViaPidfiles_spares_gut demoEnv localEndpoint demoMachine (by decide)).2.2
      ["watch-_srv_a.pid".toList, "watch-_srv_b.pid".toList, "gut-_srv_a.pid".toList,
        "stale-_srv_a.pid".toList, "bad-_srv_a.pid".toList] rfl rfl
  refine ⟨m', h1, ?_⟩
  rw [(h4 "gut-_srv_a.pid".toList (by decide) "_srv_a".toList (by decide) (by decide)).2]
  decide

/-! ## Naming -/

/-- C9, as the code has it: `String()` returns `{SyncContext <user>@<host>:<path>}` for a
remote endpoint (non-empty hostname) and `{SyncContext local <path>}` for a local one. -/
theorem String_format (ctx : SyncContext) :
    (ctx.Hostname ≠ [] →
      ctx.String = "\x7bSyncContext ".toList ++ ctx.Username ++ "@".toList ++ ctx.Hostname
        ++ ":".toList ++ ctx.syncPath ++ "\x7d".toList) ∧
    (ctx.Hostname = [] →
      ctx.String = "\x7bSyncContext local ".toList ++ ctx.syncPath ++ "\x7d".toList) := by
  constructor
  · intro h
    simp [SyncContext.String, h]
  · intro h
    simp [SyncContext.String, h]

/-- C9, witness: the two formats on the endpoints `alice@host1:/a/b` and `/local/path`. -/
theorem String_format_witness :
    remoteEndpoint.String = "\x7bSyncContext alice@host1:/a/b\x7d".toList ∧
    localEndpoint.String = "\x7bSyncContext local /local/path\x7d".toList :=
  ⟨(String_format remoteEndpoint).1 (by decide), (String_format localEndpoint).2 (by decide)⟩

/-- C9, counterexample: the strings are not the bare `<user>@<host>:<path>` and
`local:<path>` of the claim. -/
theorem String_bare_counterexample :
    remoteEndpoint.String ≠ "alice@host1:/a/b".toList ∧
    localEndpoint.String ≠ "local:/local/path".toList := by
  decide

theorem hexDigit_mem (n : Nat) (h : n < 16) : hexDigit n ∈ "0123456789abcdef".toList := by
  interval_cases n <;> decide

theorem hexBytes_length (bs : List Nat) : (hexBytes bs).length = 2 * bs.length := by
  induction bs with
  | nil => rfl
  | cons b t ih =>
    simp only [hexBytes, List.flatMap_cons, List.length_append, List.length_cons,
      List.length_nil] at ih ⊢
    omega

theorem hexBytes_mem (bs : List Nat) (c : Char) (h : c ∈ hexBytes bs) :
    c ∈ "0123456789abcdef".toList := by
  simp only [hexBytes, List.mem_flatMap] at h
  obtain ⟨b, _, hc⟩ := h
  simp only [List.mem_cons, List.mem_singleton, List.not_mem_nil, or_false] at hc
  rcases hc with hc | hc
  · rw [hc]
    exact hexDigit_mem _ (by omega)
  · rw [hc]
    exact hexDigit_mem _ (by omega)

/-- C8: `BranchName()` is the hostname (`localhost` when it is empty), a dash, and the
first 8 characters of the lowercase hexadecimal MD5 digest of `String()`; these are
exactly 8 hexadecimal digits, and the name is the same for any two endpoints with the
same username, hostname and syncPath, whatever their cached fields. -/
theorem BranchName_spec (ctx : SyncContext) :
    ctx.BranchName =
      (if ctx.Hostname = [] then "localhost".toList else ctx.Hostname) ++ "-".toList
        ++ (hexBytes (md5.Sum (toBytes ctx.String)).bytes).take 8 ∧
    ((hexBytes (md5.Sum (toBytes ctx.String)).bytes).take 8).length = 8 ∧
    (∀ c ∈ (hexBytes (md5.Sum (toBytes ctx.String)).bytes).take 8,
      c ∈ "0123456789abcdef".toList) ∧
    (∀ ctx' : SyncContext, ctx'.Username = ctx.Username → ctx'.Hostname = ctx.Hostname →
      ctx'.syncPath = ctx.syncPath → ctx'.BranchName = ctx.BranchName) := by
  refine ⟨rfl, ?_, ?_, ?_⟩
  · rw [List.length_take, hexBytes_length, (md5.Sum _).size_eq]
    rfl
  · intro c hc
    exact hexBytes_mem _ c (List.mem_of_mem_take hc)
  · intro ctx' hu hh hp
    have hs : ctx'.String = ctx.String := by
      simp only [SyncContext.String, hu, hh, hp]
    simp only [SyncContext.BranchName, hs, hh]

/-- C8, witness: the branch name of the local endpoint for `/local/path`, unchanged when
both caches are filled in. -/
theorem BranchName_spec_witness :
    localEndpoint.BranchName = "localhost-7a621770".toList ∧
    ({ localEndpoint with hasGutInstalled := some true, tailHash := "abc".toList } :
      SyncContext).BranchName = localEndpoint.BranchName :=
  ⟨by decide, (BranchName_spec localEndpoint).2.2.2 _ rfl rfl rfl⟩

end Gut
